import Mathlib

/-!
Verification of the cf-git-durable-object core against its specification.

Shallow embedding of:
* the pkt-line codec (src/apps/server-demo/worker/lib/pkt-line.ts),
* the receive-pack engine (ServableRepoObject in the same package),
* the chunked SQLite filesystem adapter (src/packages/sqlite-fs/src/sqlite-fs-adapter.ts).

Byte buffers are `List Nat` (each element a byte value). JavaScript strings are
Lean `String`/`List Char`. The external collaborators (node:path, the SQLite
row store, isomorphic-git) are modelled as explicit parameters or as a concrete
reference state, as noted at each definition.
-/

namespace CfGit

/-! ## JavaScript text primitives

`TextDecoder` (UTF-8, replacement mode) and `Number.parseInt(str, 16)` are the
JS runtime primitives the codec relies on; they are modelled byte-for-byte.
-/

/-- The JS `StrWhiteSpaceChar` set (WhiteSpace ∪ LineTerminator): what
`parseInt`, `String.prototype.trim` and the regex `\s` class treat as
whitespace. -/
def isJsWhitespace (c : Char) : Bool :=
  c.toNat ∈ [9, 10, 11, 12, 13, 32, 0xA0, 0x1680,
    0x2000, 0x2001, 0x2002, 0x2003, 0x2004, 0x2005, 0x2006, 0x2007,
    0x2008, 0x2009, 0x200A, 0x2028, 0x2029, 0x202F, 0x205F, 0x3000, 0xFEFF]

/-- Value of a hexadecimal digit character, as accepted by JS `parseInt` with
radix 16. -/
def hexDigitVal (c : Char) : Option Nat :=
  if 48 ≤ c.toNat ∧ c.toNat ≤ 57 then some (c.toNat - 48)
  else if 97 ≤ c.toNat ∧ c.toNat ≤ 102 then some (c.toNat - 87)
  else if 65 ≤ c.toNat ∧ c.toNat ≤ 70 then some (c.toNat - 55)
  else none

/-- Strip a leading `0x`/`0X` marker, as `parseInt` does for radix 16. -/
def stripHexMark : List Char → List Char
  | a :: b :: t => if a = '0' ∧ (b = 'x' ∨ b = 'X') then t else a :: b :: t
  | l => l

/-- JS `Number.parseInt(s, 16)`: skip leading whitespace, optional sign,
optional `0x`/`0X`, then the longest run of hex digits; `none` models `NaN`
(no digits at all).  Trailing garbage is ignored. -/
def jsParseInt16 (s : List Char) : Option Int :=
  match s.dropWhile isJsWhitespace with
  | [] => none
  | c :: r =>
    let sign : Int := if c = '-' then -1 else 1
    let s2 : List Char := if c = '-' ∨ c = '+' then r else c :: r
    let digits := (stripHexMark s2).takeWhile (fun c2 => (hexDigitVal c2).isSome)
    if digits = [] then none
    else some (sign * (digits.foldl (fun acc c2 => acc * 16 + (hexDigitVal c2).getD 0) 0 : Nat))

/-- One step of WHATWG UTF-8 decoding in replacement mode: decode the first
scalar value (or one U+FFFD for a maximal invalid subpart) and return it with
the unconsumed remainder of the stream.  Always consumes at least one byte of
a nonempty stream. -/
def utf8Step (b : Nat) (rest : List Nat) : Char × List Nat :=
  if b < 0x80 then (Char.ofNat b, rest)
    else if 0xC2 ≤ b ∧ b ≤ 0xDF then
      match rest with
      | [] => ('�', [])
      | c :: rest2 =>
        if 0x80 ≤ c ∧ c ≤ 0xBF then
          (Char.ofNat ((b - 0xC0) * 64 + (c - 0x80)), rest2)
        else ('�', c :: rest2)
    else if 0xE0 ≤ b ∧ b ≤ 0xEF then
      -- second-byte range depends on the lead byte (WHATWG table)
      let lo := if b = 0xE0 then 0xA0 else 0x80
      let hi := if b = 0xED then 0x9F else 0xBF
      match rest with
      | [] => ('�', [])
      | c :: rest2 =>
        if lo ≤ c ∧ c ≤ hi then
          match rest2 with
          | [] => ('�', [])
          | d :: rest3 =>
            if 0x80 ≤ d ∧ d ≤ 0xBF then
              (Char.ofNat ((b - 0xE0) * 4096 + (c - 0x80) * 64 + (d - 0x80)), rest3)
            else ('�', d :: rest3)
        else ('�', c :: rest2)
    else if 0xF0 ≤ b ∧ b ≤ 0xF4 then
      let lo := if b = 0xF0 then 0x90 else 0x80
      let hi := if b = 0xF4 then 0x8F else 0xBF
      match rest with
      | [] => ('�', [])
      | c :: rest2 =>
        if lo ≤ c ∧ c ≤ hi then
          match rest2 with
          | [] => ('�', [])
          | d :: rest3 =>
            if 0x80 ≤ d ∧ d ≤ 0xBF then
              match rest3 with
              | [] => ('�', [])
              | e :: rest4 =>
                if 0x80 ≤ e ∧ e ≤ 0xBF then
                  (Char.ofNat ((b - 0xF0) * 262144 + (c - 0x80) * 4096 +
                    (d - 0x80) * 64 + (e - 0x80)), rest4)
                else ('�', e :: rest4)
            else ('�', d :: rest3)
        else ('�', c :: rest2)
    else ('�', rest)

/-- Fuel-driven iteration of `utf8Step`.  The fuel only bounds the number of
steps; since every step consumes at least one byte, fuel equal to the input
length (as supplied by `utf8Decode`) is never exhausted. -/
def utf8DecodeAux : Nat → List Nat → List Char
  | _, [] => []
  | 0, _ :: _ => []
  | fuel + 1, b :: rest =>
    let (ch, rest2) := utf8Step b rest
    ch :: utf8DecodeAux fuel rest2

/-- WHATWG UTF-8 decoding in replacement mode (`new TextDecoder()`), used by
`decodePktText` and `decodePktLineLength`.  Invalid sequences produce U+FFFD
and decoding resumes at the offending byte. -/
def utf8Decode (l : List Nat) : List Char :=
  utf8DecodeAux l.length l

example : utf8Decode [104, 105] = ['h', 'i'] := by decide
example : utf8Decode [48, 48, 103, 53] = ['0', '0', 'g', '5'] := by decide
example : utf8Decode [0xC3, 0xA9] = ['é'] := by decide
example : utf8Decode [0xFF, 53] = ['�', '5'] := by decide

/-! ## Pkt-line codec (src/apps/server-demo/worker/lib/pkt-line.ts) -/

/-- `input.slice(a, b)` on a `Uint8Array` (with `0 ≤ a ≤ b ≤ length`, the only
way the codec calls it). -/
def listSlice (l : List Nat) (a b : Nat) : List Nat :=
  (l.take b).drop a

/-- A decoded pkt-line unit: a data line, a flush (`0000`) or a delimiter
(`0001`). -/
inductive PktLine
  | data (payload : List Nat)
  | flush
  | delimiter
deriving DecidableEq, Repr

/-- One yielded element of the `parsePktLines` generator. -/
structure PktUnit where
  pkt : PktLine
  offset : Nat
  nextOffset : Nat
deriving DecidableEq, Repr

/-- The hex digit characters produced by JS `Number.prototype.toString(16)`
(lowercase). -/
def hexChar (d : Nat) : Char :=
  if d < 10 then Char.ofNat (48 + d) else Char.ofNat (87 + d)

/-- `length.toString(16).padStart(4, "0")` for `length ≤ 0xffff` (the encoder
rejects larger values before formatting, so the padded form is exactly the
four base-16 digits). -/
def toHex4 (n : Nat) : List Char :=
  [hexChar (n / 4096 % 16), hexChar (n / 256 % 16), hexChar (n / 16 % 16), hexChar (n % 16)]

/-- WHATWG UTF-8 encoding of one code point (`TextEncoder`; Lean `Char` holds
no lone surrogates, so the replacement branch never applies). -/
def utf8EncodeChar (c : Char) : List Nat :=
  let n := c.toNat
  if n < 0x80 then [n]
  else if n < 0x800 then [0xC0 + n / 64, 0x80 + n % 64]
  else if n < 0x10000 then [0xE0 + n / 4096, 0x80 + n / 64 % 64, 0x80 + n % 64]
  else [0xF0 + n / 262144, 0x80 + n / 4096 % 64, 0x80 + n / 64 % 64, 0x80 + n % 64]

/-- `textEncoder.encode(s)`: the UTF-8 bytes of a string, applied by
`encodePktLine` to its string payloads. -/
def utf8Encode (s : String) : List Nat :=
  (s.toList.map utf8EncodeChar).flatten

/-- `encodePktLine` on a byte payload: prefix `payload.length + 4` as four hex
digits (ASCII bytes) and append the payload; reject a framed length above
`0xffff`. -/
def encodePktLine (payload : List Nat) : Except String (List Nat) :=
  let length := payload.length + 4
  if length > 0xffff then .error "pkt-line too long"
  else .ok ((toHex4 length).map Char.toNat ++ payload)

/-- `encodePktFlush()`: the literal bytes `"0000"`. -/
def encodePktFlush : List Nat := [48, 48, 48, 48]

/-- `decodePktLineLength(prefix)`: UTF-8-decode the 4 prefix bytes, parse with
`Number.parseInt(str, 16)`, reject `NaN`, negative values and values above
`0xffff`. -/
def decodePktLineLength (pfx : List Nat) : Except String Nat :=
  if pfx.length ≠ 4 then .error "invalid pkt-line prefix length"
  else
    match jsParseInt16 (utf8Decode pfx) with
    | none => .error "invalid pkt-line length"
    | some v =>
      if v < 0 ∨ v > 0xffff then .error "invalid pkt-line length"
      else .ok v.toNat

/-- The `parsePktLines` generator, run to completion: starting at `offset`,
repeatedly decode a length prefix while at least 4 bytes remain; `0` yields a
flush, `1` yields a delimiter, `2`/`3` are invalid, and a declared length
running past the end of the buffer is a truncation error. -/
def parsePktLines (input : List Nat) (offset : Nat) : Except String (List PktUnit) :=
  if _h : offset + 4 ≤ input.length then
    match decodePktLineLength (listSlice input offset (offset + 4)) with
    | .error e => .error e
    | .ok len =>
      if len = 0 then
        (parsePktLines input (offset + 4)).map (⟨.flush, offset, offset + 4⟩ :: ·)
      else if len = 1 then
        (parsePktLines input (offset + 4)).map (⟨.delimiter, offset, offset + 4⟩ :: ·)
      else if len < 4 then .error "invalid pkt-line length"
      else if input.length < offset + len then .error "truncated pkt-line"
      else
        (parsePktLines input (offset + len)).map
          (⟨.data (listSlice input (offset + 4) (offset + len)), offset, offset + len⟩ :: ·)
  else .ok []
termination_by input.length - offset
decreasing_by all_goals omega

/-- `readPktLinesUntilFlush`: consume the generator lazily, collecting data
payloads, returning at the first flush, skipping delimiters; if the generator
ends without a flush, throw.  Fused with the generator to mirror its lazy
consumption (bytes past the flush are never parsed). -/
def readPktLinesUntilFlush (input : List Nat) (startOffset : Nat) :
    Except String (List (List Nat) × Nat) :=
  if _h : startOffset + 4 ≤ input.length then
    match decodePktLineLength (listSlice input startOffset (startOffset + 4)) with
    | .error e => .error e
    | .ok len =>
      if len = 0 then .ok ([], startOffset + 4)
      else if len = 1 then readPktLinesUntilFlush input (startOffset + 4)
      else if len < 4 then .error "invalid pkt-line length"
      else if input.length < startOffset + len then .error "truncated pkt-line"
      else
        (readPktLinesUntilFlush input (startOffset + len)).map
          (fun r => (listSlice input (startOffset + 4) (startOffset + len) :: r.1, r.2))
  else .error "expected pkt-line flush"
termination_by input.length - startOffset
decreasing_by all_goals omega

/-- `decodePktText(line)`: UTF-8 decode of a payload. -/
def decodePktText (line : List Nat) : String :=
  String.mk (utf8Decode line)

/-! ## SQLite filesystem adapter (src/packages/sqlite-fs/src/sqlite-fs-adapter.ts)

The `file_chunks` table is a list of rows; SQL queries become list operations.
The schema's primary key `(path, chunk_index)` guarantees at most one row per
key in any reachable store, so `db.one` on a key-filtered query is modelled by
first match (`TooManyRowsError` is unreachable).  `node:path` is an external
collaborator and enters as an explicit `PathLib` parameter. -/

/-- The `type` column: `CHECK(type IN ('file', 'directory', 'symlink'))`. -/
inductive FType
  | file
  | directory
  | symlink
deriving DecidableEq, Repr

/-- POSIX-style error codes produced by `createError` in error-utils.ts. -/
inductive Code
  | ENOENT
  | EEXIST
  | ENOTDIR
  | EISDIR
  | ENOTEMPTY
  | EPERM
  | EINVAL
  | EIO
deriving DecidableEq, Repr

/-- One row of `file_chunks`.  `content` is the BLOB column (`none` = NULL,
used for directories). -/
structure Row where
  path : String
  chunkIndex : Nat
  type : FType
  content : Option (List Nat)
  mode : Nat
  mtime : String
  totalSize : Nat
deriving DecidableEq, Repr

/-- The `file_chunks` table. -/
abbrev Store := List Row

/-- The `node:path` collaborator used by `getDbPath` (`normalize`) and the
parent checks (`dirname`).  The adapter's behaviour is proved for every such
collaborator; witnesses instantiate it with the values node returns on the
concrete paths involved. -/
structure PathLib where
  normalize : String → String
  dirname : String → String

/-- `SELECT ... WHERE path = ? AND chunk_index = 0` via `db.one`: the unique
metadata row for a path, if any (`none` models `NoRowsError`). -/
def metaRow (st : Store) (p : String) : Option Row :=
  st.find? (fun r => r.path == p && r.chunkIndex == 0)

/-- SQLite `LIKE` matching (default `case_sensitive_like = OFF`): `%` matches
any run, `_` matches one character, plain characters compare ASCII
case-insensitively. -/
def likeFoldChar (c : Char) : Char :=
  if 65 ≤ c.toNat ∧ c.toNat ≤ 90 then Char.ofNat (c.toNat + 32) else c

/-- Core of SQLite `LIKE` on character lists, fuel-driven so that it reduces
in the kernel.  Every recursive call shrinks `pattern.length + s.length`, so
fuel equal to that sum (as supplied by `likeMatch`) is never exhausted. -/
def likeMatchAux : Nat → List Char → List Char → Bool
  | _, [], [] => true
  | _, [], _ :: _ => false
  | 0, _ :: _, _ => false
  | fuel + 1, p :: ps, s =>
    if p = '%' then
      match s with
      | [] => likeMatchAux fuel ps []
      | c :: cs => likeMatchAux fuel ps (c :: cs) || likeMatchAux fuel (p :: ps) cs
    else
      match s with
      | [] => false
      | c :: cs =>
        if p = '_' then likeMatchAux fuel ps cs
        else (likeFoldChar p == likeFoldChar c) && likeMatchAux fuel ps cs

/-- `path LIKE pattern` on strings. -/
def sqlLike (pattern s : String) : Bool :=
  likeMatchAux (pattern.length + s.length) pattern.toList s.toList

/-- JS `String.prototype.startsWith`. -/
def jsStartsWith (s pfx : String) : Bool :=
  pfx.toList.isPrefixOf s.toList

/-- JS `String.prototype.endsWith`. -/
def jsEndsWith (s sfx : String) : Bool :=
  sfx.toList.isSuffixOf s.toList

example : sqlLike "a/%" "a/x" = true := by decide
example : sqlLike "a/%" "a/" = true := by decide
example : sqlLike "a/%" "a" = false := by decide
example : sqlLike "a_b/%" "axb/f" = true := by decide
example : sqlLike "a/%" "A/x" = true := by decide

/-- `CHUNK_SIZE = 1.8 * 1024 * 1024` in schema.ts is an IEEE double whose
exact value is `8106479329266893 / 2^32` (`1.8` rounds to `8106479329266893 /
2^52`, and multiplying by the power of two `1024 * 1024` is exact).  The
adapter's arithmetic on it is modelled exactly as the rational
`CHUNK_NUM / CHUNK_DEN`; for every buffer a JS runtime can represent, the
floating-point roundings in `i * CHUNK_SIZE` (error below one part in 2^52)
never move a value across the integer boundaries that `Math.ceil` and
`subarray`'s truncation observe, so the exact-rational semantics coincides
with the runtime's. -/
def CHUNK_NUM : Nat := 8106479329266893

/-- Denominator of the exact value of `CHUNK_SIZE`. -/
def CHUNK_DEN : Nat := 4294967296

/-- `Math.ceil(totalSize / CHUNK_SIZE)` for natural `totalSize`:
`⌈n * CHUNK_DEN / CHUNK_NUM⌉`. -/
def chunkCount (n : Nat) : Nat :=
  (n * CHUNK_DEN + (CHUNK_NUM - 1)) / CHUNK_NUM

/-- `⌊i * CHUNK_SIZE⌋`: the start offset `subarray` actually uses for chunk
`i` (JS `subarray` truncates its fractional arguments). -/
def chunkBoundary (i : Nat) : Nat :=
  i * CHUNK_NUM / CHUNK_DEN

example : chunkBoundary 1 = 1887436 := by decide
example : chunkCount 2000000 = 2 := by decide
example : chunkCount 1887436 = 1 := by decide
example : chunkCount 1887437 = 2 := by decide

/-- The rows `_writeFile` inserts after deleting the path's old rows: a single
row when `totalSize ≤ CHUNK_SIZE`, otherwise a `chunk_index = 0` row carrying
`buffer.subarray(0, CHUNK_SIZE)` followed by one row per remaining chunk
`i ∈ [1, chunkCount)` carrying
`buffer.subarray(i * CHUNK_SIZE, min(i * CHUNK_SIZE + CHUNK_SIZE, totalSize))`.
All rows are stamped with the same `mode`, `mtime` and `total_size`. -/
def writeChunkRows (p : String) (data : List Nat) (mode : Nat) (mtime : String) : List Row :=
  let totalSize := data.length
  if totalSize * CHUNK_DEN ≤ CHUNK_NUM then
    [⟨p, 0, .file, some data, mode, mtime, totalSize⟩]
  else
    ⟨p, 0, .file, some (data.take (chunkBoundary 1)), mode, mtime, totalSize⟩ ::
    (List.range' 1 (chunkCount totalSize - 1)).map (fun i =>
      ⟨p, i, .file, some ((data.take (min (chunkBoundary (i + 1)) totalSize)).drop (chunkBoundary i)),
        mode, mtime, totalSize⟩)

/-- `_writeFile(path, data, options)`: check the parent directory, reject a
directory target, delete every existing row for the path, insert the chunk
rows.  `mode` defaults to `0o644` and `mtime` is the current ISO timestamp;
both enter as parameters. -/
def writeFile (pl : PathLib) (st : Store) (path : String) (data : List Nat)
    (mode : Nat) (mtime : String) : Except Code Store :=
  let dbPath := pl.normalize path
  let parentPath := pl.dirname dbPath
  let parentCheck : Except Code Unit :=
    if parentPath ≠ "." ∧ parentPath ≠ "/" then
      match metaRow st parentPath with
      | none => .error .ENOENT
      | some parent => if parent.type ≠ .directory then .error .ENOTDIR else .ok ()
    else .ok ()
  match parentCheck with
  | .error e => .error e
  | .ok _ =>
    match metaRow st dbPath with
    | some existing =>
      if existing.type = .directory then .error .EISDIR
      else .ok (st.filter (fun r => ¬ r.path = dbPath) ++ writeChunkRows dbPath data mode mtime)
    | none =>
      .ok (st.filter (fun r => ¬ r.path = dbPath) ++ writeChunkRows dbPath data mode mtime)

/-- `_readFile(path)` in binary mode: require an existing non-directory
metadata row, then concatenate the `content` of every row for the path in
`chunk_index` order, skipping NULL contents. -/
def readFile (pl : PathLib) (st : Store) (path : String) : Except Code (List Nat) :=
  let dbPath := pl.normalize path
  match metaRow st dbPath with
  | none => .error .ENOENT
  | some m =>
    if m.type = .directory then .error .EISDIR
    else
      let rows := (st.filter (fun r => r.path == dbPath)).insertionSort
        (fun a b => a.chunkIndex ≤ b.chunkIndex)
      .ok (rows.filterMap (fun r => r.content)).flatten

/-- The fields of the `Stats` object `createStats` builds which the store
determines: the node type, `mode`, `size` (0 for a directory, else the
`chunk_index = 0` row's content length) and the `mtime` column the timestamp
fields are parsed from. -/
structure Stats where
  ftype : FType
  mode : Nat
  size : Nat
  mtime : String
deriving DecidableEq, Repr

/-- `_lstat(path)`: `createStats` of the metadata row, `ENOENT` when absent. -/
def lstat (pl : PathLib) (st : Store) (path : String) : Except Code Stats :=
  match metaRow st (pl.normalize path) with
  | none => .error .ENOENT
  | some r =>
    .ok ⟨r.type, r.mode,
      (if r.type = .directory then 0 else ((r.content.map List.length).getD 0)),
      r.mtime⟩

/-- `_stat(path)`: "For this adapter, stat behaves identically to lstat". -/
def stat (pl : PathLib) (st : Store) (path : String) : Except Code Stats :=
  lstat pl st path

/-- `_mkdir(path, options)`: reject an existing path, check the parent, insert
one `chunk_index = 0` directory row with NULL content and `total_size = 0`. -/
def mkdir (pl : PathLib) (st : Store) (path : String) (mode : Nat) (mtime : String) :
    Except Code Store :=
  let dbPath := pl.normalize path
  match metaRow st dbPath with
  | some _ => .error .EEXIST
  | none =>
    let parentPath := pl.dirname dbPath
    let parentCheck : Except Code Unit :=
      if parentPath ≠ "." ∧ parentPath ≠ "/" then
        match metaRow st parentPath with
        | none => .error .ENOENT
        | some parent => if parent.type ≠ .directory then .error .ENOTDIR else .ok ()
      else .ok ()
    match parentCheck with
    | .error e => .error e
    | .ok _ => .ok (st ++ [⟨dbPath, 0, .directory, none, mode, mtime, 0⟩])

/-- `_unlink(path)`: `ENOENT` when absent, `EPERM` on a directory, else delete
every row for the path. -/
def unlink (pl : PathLib) (st : Store) (path : String) : Except Code Store :=
  let dbPath := pl.normalize path
  match metaRow st dbPath with
  | none => .error .ENOENT
  | some file =>
    if file.type = .directory then .error .EPERM
    else .ok (st.filter (fun r => ¬ r.path = dbPath))

/-- `_rmdir(path)`: `ENOENT` when absent, `ENOTDIR` on a non-directory; then
`SELECT path FROM file_chunks WHERE path LIKE dirPrefix || '%' AND path != ?
AND chunk_index = 0 LIMIT 1` decides emptiness, and an empty directory loses
only its `chunk_index = 0` row. -/
def rmdir (pl : PathLib) (st : Store) (path : String) : Except Code Store :=
  let dbPath := pl.normalize path
  match metaRow st dbPath with
  | none => .error .ENOENT
  | some file =>
    if file.type ≠ .directory then .error .ENOTDIR
    else
      let dirPat := (if jsEndsWith dbPath "/" then dbPath else dbPath ++ "/") ++ "%"
      if st.any (fun r => sqlLike dirPat r.path && r.path != dbPath && r.chunkIndex == 0) then
        .error .ENOTEMPTY
      else
        .ok (st.filter (fun r => ¬ (r.path = dbPath ∧ r.chunkIndex = 0)))

/-- `_readlink(path)`: stub, always `EINVAL`; the store is neither read nor
written (the body is a single `throw`). -/
def readlink (_pl : PathLib) (_st : Store) (_path : String) : Except Code (List Nat) :=
  .error .EINVAL

/-- `_symlink(target, path)`: stub, always `EPERM`; the store is neither read
nor written. -/
def symlink (_pl : PathLib) (_st : Store) (_target _path : String) : Except Code Unit :=
  .error .EPERM

/-! ## Receive-pack engine (ServableRepoObject)

Refs live in `.git` files managed by isomorphic-git, an external collaborator;
they are modelled as the authoritative association `refs : name → oid`
together with HEAD's symbolic target.  `git.writeRef` / `git.deleteRef` can
throw, so they enter as a fallible `GitBackend` parameter;
`resolveRefOrZero`'s catch-all maps an unresolvable ref to the all-zero OID.
The packfile persistence + `git.indexPack` composite only touches the object
store, never refs, and enters as the fallible `idx` parameter. -/

/-- `ZERO_OID = "0".repeat(40)`. -/
def ZERO_OID : String := "0000000000000000000000000000000000000000"

example : ZERO_OID.length = 40 := by decide

/-- `MAX_PACK_SIZE = 30 * 1024 * 1024`. -/
def MAX_PACK_SIZE : Nat := 31457280

/-- A parsed `RefUpdate` command `{oldOid, newOid, ref}`. -/
structure RefUpdate where
  oldOid : String
  newOid : String
  ref : String
deriving DecidableEq, Repr

/-- A `RefUpdateResult`: `{ref, status: "ok"}` or `{ref, status: "ng", reason}`. -/
inductive RefUpdateResult
  | ok (ref : String)
  | ng (ref : String) (reason : String)
deriving DecidableEq, Repr

/-- The ref of a `RefUpdateResult`. -/
def RefUpdateResult.refName : RefUpdateResult → String
  | .ok ref => ref
  | .ng ref _ => ref

/-- The repository's ref state: named refs and HEAD's symbolic target. -/
structure Repo where
  refs : List (String × String)
  headTarget : String
deriving DecidableEq, Repr

/-- Resolve a ref name against the stored refs. -/
def lookupRef (r : Repo) (name : String) : Option String :=
  (r.refs.find? (fun p => p.1 == name)).map (fun p => p.2)

/-- `resolveRefOrZero(ref)`: `git.resolveRef` with every failure mapped to the
all-zero OID.  `HEAD` resolves through its symbolic target. -/
def resolveRefOrZero (r : Repo) (ref : String) : String :=
  if ref = "HEAD" then (lookupRef r r.headTarget).getD ZERO_OID
  else (lookupRef r ref).getD ZERO_OID

/-- The fallible ref-writing collaborator (`git.writeRef` with `force: true`
and `git.deleteRef`); an `error` models a thrown exception whose `message` is
the payload. -/
structure GitBackend where
  writeRef : Repo → String → String → Except String Repo
  deleteRef : Repo → String → Except String Repo

/-- The reference backend: infallible map update / removal, HEAD target
untouched. -/
def modelBackend : GitBackend where
  writeRef r ref v := .ok ⟨(ref, v) :: r.refs.filter (fun p => ¬ p.1 = ref), r.headTarget⟩
  deleteRef r ref := .ok ⟨r.refs.filter (fun p => ¬ p.1 = ref), r.headTarget⟩

/-- `error?.message || "ref update failed"`: an empty (or missing) message
falls back to the default reason. -/
def refFailReason (m : String) : String :=
  if m = "" then "ref update failed" else m

/-- `updateRefs(updates)`: apply each command independently in input order,
threading the ref state.  Reject non-`refs/` names as "invalid ref"; reject an
`oldOid` differing from the currently resolved OID as "non-fast-forward";
otherwise delete (all-zero `newOid`) or force-write the ref, turning a thrown
error into an `ng` with its message. -/
def updateRefs (B : GitBackend) (r : Repo) :
    List RefUpdate → List RefUpdateResult × Repo
  | [] => ([], r)
  | u :: rest =>
    if ¬ jsStartsWith u.ref "refs/" then
      let next := updateRefs B r rest
      (.ng u.ref "invalid ref" :: next.1, next.2)
    else
      let currentOid := resolveRefOrZero r u.ref
      if u.oldOid ≠ currentOid then
        let next := updateRefs B r rest
        (.ng u.ref "non-fast-forward" :: next.1, next.2)
      else
        let step : RefUpdateResult × Repo :=
          if u.newOid = ZERO_OID then
            match B.deleteRef r u.ref with
            | .ok r1 => (.ok u.ref, r1)
            | .error m => (.ng u.ref (refFailReason m), r)
          else
            match B.writeRef r u.ref u.newOid with
            | .ok r1 => (.ok u.ref, r1)
            | .error m => (.ng u.ref (refFailReason m), r)
        let next := updateRefs B step.2 rest
        (step.1 :: next.1, next.2)

/-- JS `String.prototype.trim()`: strip leading and trailing
`StrWhiteSpaceChar`s. -/
def jsTrim (s : String) : String :=
  String.mk (((s.toList.dropWhile isJsWhitespace).reverse.dropWhile isJsWhitespace).reverse)

/-- `trimmed.split("\0")[0]`: the text before the first NUL. -/
def beforeNul (s : String) : String :=
  String.mk (s.toList.takeWhile (fun c => c.toNat ≠ 0))

/-- Split on runs of whitespace, mirroring `s.split(/\s+/)` on a trimmed
input (`""` gives `[""]`).  The accumulator is the reversed word in progress;
`none` means a whitespace run is being skipped (which, on a trimmed input,
always precedes another word). -/
def jsSplitWsAux : Option (List Char) → List Char → List String
  | some acc, [] => [String.mk acc.reverse]
  | none, [] => []
  | some acc, c :: cs =>
    if isJsWhitespace c then String.mk acc.reverse :: jsSplitWsAux none cs
    else jsSplitWsAux (some (c :: acc)) cs
  | none, c :: cs =>
    if isJsWhitespace c then jsSplitWsAux none cs
    else jsSplitWsAux (some [c]) cs

/-- `s.split(/\s+/)` as applied to an already-trimmed string. -/
def jsSplitWs (s : String) : List String :=
  jsSplitWsAux (some []) s.toList

example : jsSplitWs "a  b c" = ["a", "b", "c"] := by decide
example : jsSplitWs "" = [""] := by decide

/-- `parseRefUpdates(commandLines)`: per line, strip one trailing `\n`, take
the part before the first NUL on the first line only, skip empty parts, trim
and split on whitespace, and keep lines with at least three fields as
`{oldOid, newOid, ref}`. -/
def parseRefUpdates (commandLines : List String) : List RefUpdate :=
  (commandLines.enum.filterMap (fun iline =>
    let line := iline.2
    let trimmed := if jsEndsWith line "\n" then String.mk line.toList.dropLast else line
    let commandPart := if iline.1 = 0 then beforeNul trimmed else trimmed
    if commandPart = "" then none
    else
      match jsSplitWs (jsTrim commandPart) with
      | oldOid :: newOid :: ref :: _ => some ⟨oldOid, newOid, ref⟩
      | _ => none))

/-- Outcome of the unpack step reported at the head of the status response. -/
inductive Unpack
  | ok
  | fail (error : String)
deriving DecidableEq, Repr

/-- The pack persistence + `git.indexPack` collaborator composite: it may
rewrite the object store (not modelled) but never refs, and an `error` models
a thrown exception's message. -/
abbrev IndexOracle := Repo → List Nat → Except String Repo

/-- `processPackfile(packData)`: reject a pack above `MAX_PACK_SIZE` before
touching anything; otherwise persist + index, turning a thrown error into a
failed unpack with `"error: " + (message || "index-pack failed")`. -/
def processPackfile (idx : IndexOracle) (r : Repo) (packData : List Nat) : Unpack × Repo :=
  if packData.length > MAX_PACK_SIZE then (.fail "error: pack too large", r)
  else
    match idx r packData with
    | .ok r1 => (.ok, r1)
    | .error m => (.fail ("error: " ++ (if m = "" then "index-pack failed" else m)), r)

/-- The report line `buildReportStatus` formats for one result:
`ok <ref>\n` or `ng <ref> <reason>\n`. -/
def reportLine (res : RefUpdateResult) : String :=
  match res with
  | .ok ref => "ok " ++ ref ++ "\n"
  | .ng ref reason => "ng " ++ ref ++ " " ++ reason ++ "\n"

/-- The per-result half of `buildReportStatus`'s `lines` array: each result's
line pushed through `encodePktLine` in input order, the first over-long line's
exception propagating. -/
def encodeAll : List RefUpdateResult → Except String (List (List Nat))
  | [] => .ok []
  | res :: rest =>
    match encodePktLine (utf8Encode (reportLine res)) with
    | .error e => .error e
    | .ok enc =>
      match encodeAll rest with
      | .error e => .error e
      | .ok encs => .ok (enc :: encs)

/-- The head line of the report: `unpack ok\n` or `unpack <error>\n`. -/
def unpackLine (u : Unpack) : String :=
  match u with
  | .ok => "unpack ok\n"
  | .fail e => "unpack " ++ e ++ "\n"

/-- The `lines` array `buildReportStatus` accumulates: the encoded
`unpack ok` / `unpack <error>` head line, the encoded per-result lines, and
the flush; `encodePktLine` throws on any line whose framed length exceeds
`0xffff`. -/
def reportLines (u : Unpack) (refResults : List RefUpdateResult) :
    Except String (List (List Nat)) :=
  match encodePktLine (utf8Encode (unpackLine u)) with
  | .error e => .error e
  | .ok headLine =>
    match encodeAll refResults with
    | .error e => .error e
    | .ok rest => .ok (headLine :: (rest ++ [encodePktFlush]))

/-- `buildReportStatus`: `concatBytes` over the `lines` array — the report's
response bytes, or the exception of the first report line that does not fit a
pkt-line frame. -/
def buildReportStatus (u : Unpack) (refResults : List RefUpdateResult) :
    Except String (List Nat) :=
  match reportLines u refResults with
  | .error e => .error e
  | .ok ls => .ok ls.flatten

/-- `maybeUpdateHeadAfterPush(results)`: when HEAD does not resolve, point its
symbolic target at `refs/heads/main` if among the successfully updated
branches, else at the first successful branch in input order; otherwise leave
the repository untouched.  The candidates: successful results whose ref starts
with `refs/heads/`. -/
def headCandidates (results : List RefUpdateResult) : List String :=
  (results.filterMap (fun res =>
    match res with
    | .ok ref => some ref
    | .ng _ _ => none)).filter (fun ref => jsStartsWith ref "refs/heads/")

/-- The HEAD update step itself (the `.git/HEAD` write is the symbolic-target
assignment). -/
def maybeUpdateHeadAfterPush (r : Repo) (results : List RefUpdateResult) : Repo :=
  if resolveRefOrZero r "HEAD" ≠ ZERO_OID then r
  else
    match _hc : headCandidates results with
    | [] => r
    | c :: cs =>
      let target := if (c :: cs).contains "refs/heads/main" then "refs/heads/main" else c
      { r with headTarget := target }

/-- `receivePack(data)`: read command pkt-lines up to the first flush (a
malformed or unterminated command section throws), parse them into commands,
treat the remaining bytes as a packfile when they begin with `PACK`, process
it, then on unpack success apply the ref updates and the HEAD fixup — on
unpack failure mark every command `ng ... unpack failed` — and build the
report, whose `encodePktLine` exception (a report line over `0xffff` framed
bytes) escapes uncaught.  A successful result pairs the response bytes with
the final ref state. -/
def receivePack (B : GitBackend) (idx : IndexOracle) (r : Repo) (data : List Nat) :
    Except String (List Nat × Repo) :=
  match readPktLinesUntilFlush data 0 with
  | .error e => .error e
  | .ok (commandLines, offset) =>
    let commandsText := commandLines.map decodePktText
    let updates := parseRefUpdates commandsText
    let remaining := data.drop offset
    let hasPack := decide (4 ≤ remaining.length) &&
      (remaining.take 4 == [0x50, 0x41, 0x43, 0x4B])
    let unpacked := if hasPack then processPackfile idx r remaining else (.ok, r)
    let applied :=
      match unpacked.1 with
      | .ok => updateRefs B unpacked.2 updates
      | .fail _ =>
        (updates.map (fun (u : RefUpdate) => RefUpdateResult.ng u.ref "unpack failed"),
          unpacked.2)
    let final :=
      match unpacked.1 with
      | .ok => maybeUpdateHeadAfterPush applied.2 applied.1
      | .fail _ => applied.2
    (buildReportStatus unpacked.1 applied.1).map (fun bytes => (bytes, final))

/-! ## Helper lemmas -/

/-- `node:path` on the simple root-level names used in concrete witnesses:
`normalize` is the identity and `dirname` returns `"."`. -/
def litPathLib : PathLib := ⟨fun s => s, fun _ => "."⟩

/-- `encodePktLine` fails only with the over-length message. -/
theorem encodePktLine_error_msg (p : List Nat) (e : String)
    (h : encodePktLine p = .error e) : e = "pkt-line too long" := by
  unfold encodePktLine at h
  by_cases hgt : p.length + 4 > 0xffff
  · rw [if_pos hgt] at h
    exact (Except.error.inj h).symm
  · rw [if_neg hgt] at h
    cases h

/-- `encodeAll` fails only with `encodePktLine`'s over-length message. -/
theorem encodeAll_error_msg (res : List RefUpdateResult) (e : String)
    (h : encodeAll res = .error e) : e = "pkt-line too long" := by
  induction res with
  | nil => cases h
  | cons x rest ih =>
    unfold encodeAll at h
    cases hx : encodePktLine (utf8Encode (reportLine x)) with
    | error e1 =>
      rw [hx] at h
      exact (Except.error.inj h) ▸ encodePktLine_error_msg _ _ hx
    | ok enc =>
      rw [hx] at h
      dsimp only at h
      cases hr : encodeAll rest with
      | error e2 =>
        rw [hr] at h
        exact ih ((Except.error.inj h) ▸ hr)
      | ok encs =>
        rw [hr] at h
        cases h

/-- `buildReportStatus` fails only with `encodePktLine`'s over-length
message. -/
theorem buildReportStatus_error_msg (u : Unpack) (res : List RefUpdateResult)
    (e : String) (h : buildReportStatus u res = .error e) :
    e = "pkt-line too long" := by
  unfold buildReportStatus at h
  cases hl : reportLines u res with
  | error e1 =>
    rw [hl] at h
    unfold reportLines at hl
    cases hh : encodePktLine (utf8Encode (unpackLine u)) with
    | error e2 =>
      rw [hh] at hl
      exact (Except.error.inj h) ▸ (Except.error.inj hl) ▸ encodePktLine_error_msg _ _ hh
    | ok headLine =>
      rw [hh] at hl
      dsimp only at hl
      cases ha : encodeAll res with
      | error e3 =>
        rw [ha] at hl
        exact (Except.error.inj h) ▸ (Except.error.inj hl) ▸ encodeAll_error_msg _ _ ha
      | ok rest =>
        rw [ha] at hl
        cases hl
  | ok ls =>
    rw [hl] at h
    cases h

/-- Successful `buildReportStatus`: the flattened `lines` array. -/
theorem buildReportStatus_ok_elim (u : Unpack) (res : List RefUpdateResult)
    (bytes : List Nat) (h : buildReportStatus u res = .ok bytes) :
    ∃ ls, reportLines u res = .ok ls ∧ bytes = ls.flatten := by
  unfold buildReportStatus at h
  cases hl : reportLines u res with
  | error e =>
    rw [hl] at h
    cases h
  | ok ls =>
    rw [hl] at h
    exact ⟨ls, rfl, (Except.ok.inj h).symm⟩

/-- A successful `encodeAll` holds each result's encoded line. -/
theorem encodeAll_mem (res : List RefUpdateResult) (encs : List (List Nat))
    (h : encodeAll res = .ok encs) (x : RefUpdateResult) (hx : x ∈ res) :
    ∃ enc, encodePktLine (utf8Encode (reportLine x)) = .ok enc ∧ enc ∈ encs := by
  induction res generalizing encs with
  | nil => cases hx
  | cons y rest ih =>
    unfold encodeAll at h
    cases hy : encodePktLine (utf8Encode (reportLine y)) with
    | error e =>
      rw [hy] at h
      cases h
    | ok enc =>
      rw [hy] at h
      dsimp only at h
      cases hr : encodeAll rest with
      | error e =>
        rw [hr] at h
        cases h
      | ok encs' =>
        rw [hr] at h
        have hEncs : enc :: encs' = encs := Except.ok.inj h
        rcases List.mem_cons.mp hx with hxy | hxr
        · subst hxy
          exact ⟨enc, hy, hEncs ▸ List.mem_cons_self _ _⟩
        · obtain ⟨enc2, henc2, hmem2⟩ := ih encs' hr hxr
          exact ⟨enc2, henc2, hEncs ▸ List.mem_cons_of_mem _ hmem2⟩

/-- `encodeAll` propagates the failure of its first line's encoding. -/
theorem encodeAll_cons_error (res : RefUpdateResult) (rest : List RefUpdateResult)
    (e : String) (h : encodePktLine (utf8Encode (reportLine res)) = .error e) :
    encodeAll (res :: rest) = .error e := by
  unfold encodeAll
  rw [h]

/-- `buildReportStatus` propagates a per-result encoding failure when the
head line encodes. -/
theorem buildReportStatus_error_of (u : Unpack) (res : List RefUpdateResult) (e : String)
    (hhead : ∃ hd, encodePktLine (utf8Encode (unpackLine u)) = .ok hd)
    (h : encodeAll res = .error e) :
    buildReportStatus u res = .error e := by
  obtain ⟨hd, hhd⟩ := hhead
  unfold buildReportStatus reportLines
  rw [hhd]
  dsimp only
  rw [h]

/-- An `Except.map` that lands on `error` started from that `error`. -/
theorem except_map_error_elim {α β : Type} (E : Except String α) (f : α → β) (e : String)
    (h : E.map f = .error e) : E = .error e := by
  cases E with
  | error e2 =>
    have : e2 = e := Except.error.inj h
    rw [this]
  | ok a => cases h

/-- A member of a list of chunks sits contiguously inside their
concatenation. -/
theorem flatten_eq_of_mem (x : List Nat) (ls : List (List Nat)) (h : x ∈ ls) :
    ∃ s t, s ++ x ++ t = ls.flatten := by
  induction ls with
  | nil => cases h
  | cons a tl ih =>
    rcases List.mem_cons.mp h with hya | hyt
    · subst hya
      exact ⟨[], tl.flatten, by rw [List.flatten_cons, List.nil_append]⟩
    · obtain ⟨s, t, hst⟩ := ih hyt
      exact ⟨a ++ s, t, by rw [List.flatten_cons, ← hst]; simp [List.append_assoc]⟩

/-- A successful `writeFile` replaces every row of the target path by the
fresh chunk rows and touches nothing else. -/
theorem writeFile_ok_eq (pl : PathLib) (st : Store) (path : String) (data : List Nat)
    (mode : Nat) (mtime : String) (st2 : Store)
    (h : writeFile pl st path data mode mtime = .ok st2) :
    st2 = st.filter (fun r => ¬ r.path = pl.normalize path) ++
      writeChunkRows (pl.normalize path) data mode mtime := by
  unfold writeFile at h
  dsimp only at h
  split at h
  · exact absurd h (by simp)
  · split at h
    · split at h
      · exact absurd h (by simp)
      · exact (Except.ok.injEq _ _ ▸ h).symm
    · exact (Except.ok.injEq _ _ ▸ h).symm

/-- A successful `mkdir` appends exactly one directory row. -/
theorem mkdir_ok_eq (pl : PathLib) (st : Store) (path : String)
    (mode : Nat) (mtime : String) (st2 : Store)
    (h : mkdir pl st path mode mtime = .ok st2) :
    st2 = st ++ [⟨pl.normalize path, 0, .directory, none, mode, mtime, 0⟩] := by
  unfold mkdir at h
  dsimp only at h
  split at h
  · exact absurd h (by simp)
  · split at h
    · exact absurd h (by simp)
    · exact (Except.ok.injEq _ _ ▸ h).symm

/-- A successful `unlink` deletes exactly the rows of the target path. -/
theorem unlink_ok_eq (pl : PathLib) (st : Store) (path : String) (st2 : Store)
    (h : unlink pl st path = .ok st2) :
    st2 = st.filter (fun r => ¬ r.path = pl.normalize path) := by
  unfold unlink at h
  dsimp only at h
  split at h
  · exact absurd h (by simp)
  · split at h
    · exact absurd h (by simp)
    · exact (Except.ok.injEq _ _ ▸ h).symm

/-- A successful `rmdir` deletes exactly the `chunk_index = 0` row of the
target path. -/
theorem rmdir_ok_eq (pl : PathLib) (st : Store) (path : String) (st2 : Store)
    (h : rmdir pl st path = .ok st2) :
    st2 = st.filter (fun r => ¬ (r.path = pl.normalize path ∧ r.chunkIndex = 0)) := by
  unfold rmdir at h
  dsimp only at h
  split at h
  · exact absurd h (by simp)
  · split at h
    · exact absurd h (by simp)
    · split at h
      all_goals split at h
      · exact absurd h (by simp)
      · exact (Except.ok.inj h).symm
      · exact absurd h (by simp)
      · exact (Except.ok.inj h).symm

/-- Every row `writeChunkRows` produces is a `file` row of the written path,
carrying the buffer's length as `total_size` and the supplied `mtime`. -/
theorem writeChunkRows_fields (p : String) (data : List Nat) (mode : Nat) (mtime : String) :
    ∀ r ∈ writeChunkRows p data mode mtime,
      r.path = p ∧ r.type = .file ∧ r.totalSize = data.length ∧ r.mtime = mtime := by
  intro r hr
  unfold writeChunkRows at hr
  dsimp only at hr
  split at hr
  · simp only [List.mem_singleton] at hr
    subst hr; exact ⟨rfl, rfl, rfl, rfl⟩
  · simp only [List.mem_cons, List.mem_map] at hr
    rcases hr with hr | ⟨i, _, hr⟩
    · subst hr; exact ⟨rfl, rfl, rfl, rfl⟩
    · subst hr; exact ⟨rfl, rfl, rfl, rfl⟩

/-! ## Claim C9 -/

/-- C9: `stat` is implemented as an alias of `lstat`: for every path-library
collaborator, store state and path it returns (or fails) identically, and on a
symlink row it reports the link itself — symlinks are never followed. -/
theorem stat_is_lstat_alias (pl : PathLib) (st : Store) (p : String) :
    stat pl st p = lstat pl st p ∧
    (∀ r, metaRow st (pl.normalize p) = some r → r.type = .symlink →
      stat pl st p = .ok ⟨.symlink, r.mode, (r.content.map List.length).getD 0, r.mtime⟩) := by
  refine ⟨rfl, fun r hr hsym => ?_⟩
  unfold stat lstat
  rw [hr]
  simp [hsym]

/-- Witness for C9 at a concrete symlink row. -/
theorem stat_is_lstat_alias_witness :
    stat litPathLib [⟨"l", 0, .symlink, some [97], 511, "t0", 1⟩] "l" =
      .ok ⟨.symlink, 511, 1, "t0"⟩ :=
  (stat_is_lstat_alias litPathLib [⟨"l", 0, .symlink, some [97], 511, "t0", 1⟩] "l").2
    ⟨"l", 0, .symlink, some [97], 511, "t0", 1⟩ (by decide) rfl

/-! ## Claim C10 -/

/-- C10: `symlink` always fails `EPERM` and `readlink` always fails `EINVAL`,
independently of (and without touching) the store; and no mutating operation
ever creates a row of type `symlink`, even though the schema permits it. -/
theorem symlinks_unsupported (pl : PathLib) (st : Store) (tgt p : String)
    (data : List Nat) (mode : Nat) (mtime : String) :
    readlink pl st p = .error .EINVAL ∧
    (∀ st2, readlink pl st p = readlink pl st2 p) ∧
    symlink pl st tgt p = .error .EPERM ∧
    (∀ st2, symlink pl st tgt p = symlink pl st2 tgt p) ∧
    ((∀ r ∈ st, r.type ≠ .symlink) →
      (∀ st2, writeFile pl st p data mode mtime = .ok st2 → ∀ r ∈ st2, r.type ≠ .symlink) ∧
      (∀ st2, mkdir pl st p mode mtime = .ok st2 → ∀ r ∈ st2, r.type ≠ .symlink) ∧
      (∀ st2, unlink pl st p = .ok st2 → ∀ r ∈ st2, r.type ≠ .symlink) ∧
      (∀ st2, rmdir pl st p = .ok st2 → ∀ r ∈ st2, r.type ≠ .symlink)) := by
  refine ⟨rfl, fun _ => rfl, rfl, fun _ => rfl, fun hst => ⟨?_, ?_, ?_, ?_⟩⟩
  · intro st2 h r hr
    rw [writeFile_ok_eq pl st p data mode mtime st2 h] at hr
    rcases List.mem_append.mp hr with hmem | hmem
    · exact hst r (List.mem_of_mem_filter hmem)
    · rw [(writeChunkRows_fields _ data mode mtime r hmem).2.1]; decide
  · intro st2 h r hr
    rw [mkdir_ok_eq pl st p mode mtime st2 h] at hr
    rcases List.mem_append.mp hr with hmem | hmem
    · exact hst r hmem
    · simp only [List.mem_singleton] at hmem
      subst hmem
      exact fun hc => FType.noConfusion hc
  · intro st2 h r hr
    rw [unlink_ok_eq pl st p st2 h] at hr
    exact hst r (List.mem_of_mem_filter hr)
  · intro st2 h r hr
    rw [rmdir_ok_eq pl st p st2 h] at hr
    exact hst r (List.mem_of_mem_filter hr)

/-- Witness for C10: concrete mutations on a symlink-free store stay
symlink-free. -/
theorem symlinks_unsupported_witness :
    readlink litPathLib [] "l" = .error .EINVAL ∧
    (∀ st2, writeFile litPathLib [] "a" [104] 420 "t0" = .ok st2 →
      ∀ r ∈ st2, r.type ≠ .symlink) := by
  refine ⟨(symlinks_unsupported litPathLib [] "t" "l" [104] 420 "t0").1, ?_⟩
  exact ((symlinks_unsupported litPathLib [] "t" "a" [104] 420 "t0").2.2.2.2
    (by intro r hr; cases hr)).1

/-! ## Claim C7 -/

/-- A lone `%` matches any string (given enough fuel). -/
theorem likeMatchAux_percent (s : List Char) :
    ∀ fuel, s.length < fuel → likeMatchAux fuel ['%'] s = true := by
  induction s with
  | nil =>
    intro fuel hf
    match fuel, hf with
    | f + 1, _ => simp [likeMatchAux]
  | cons c cs ih =>
    intro fuel hf
    match fuel, hf with
    | f + 1, hf =>
      simp only [likeMatchAux, if_pos rfl]
      rw [ih f (by simpa using hf)]
      simp [likeMatchAux]

/-- Definitional unfolding of `likeMatchAux` at successor fuel and cons
pattern. -/
theorem likeMatchAux_cons (f : Nat) (p : Char) (ps s : List Char) :
    likeMatchAux (f + 1) (p :: ps) s =
      if p = '%' then
        match s with
        | [] => likeMatchAux f ps []
        | c :: cs => likeMatchAux f ps (c :: cs) || likeMatchAux f (p :: ps) cs
      else
        match s with
        | [] => false
        | c :: cs =>
          if p = '_' then likeMatchAux f ps cs
          else (likeFoldChar p == likeFoldChar c) && likeMatchAux f ps cs := rfl

/-- A pattern `ps ++ "%"` matches every string extending `ps` (wildcards in
`ps` match their own literal occurrence), with the exact fuel `sqlLike`
supplies. -/
theorem likeMatchAux_self_extend (ps : List Char) :
    ∀ (t : List Char) (fuel : Nat), 2 * ps.length + t.length + 1 ≤ fuel →
      likeMatchAux fuel (ps ++ ['%']) (ps ++ t) = true := by
  induction ps with
  | nil =>
    intro t fuel hf
    exact likeMatchAux_percent t fuel (by simp at hf ⊢; omega)
  | cons c cs ih =>
    intro t fuel hf
    obtain ⟨f, rfl⟩ : ∃ k, fuel = k + 1 := ⟨fuel - 1, by omega⟩
    rw [List.cons_append, List.cons_append, likeMatchAux_cons]
    by_cases hc : c = '%'
    · subst hc
      rw [if_pos rfl]
      obtain ⟨f2, rfl⟩ : ∃ k, f = k + 1 := ⟨f - 1, by simp at hf; omega⟩
      rcases hct : cs ++ t with _ | ⟨x, xs⟩
      · rcases List.append_eq_nil.mp hct with ⟨hcs, ht⟩
        subst hcs; subst ht
        show (likeMatchAux (f2 + 1) ([] ++ ['%']) ('%' :: ([] ++ [])) ||
          likeMatchAux (f2 + 1) ('%' :: ([] ++ ['%'])) ([] ++ [])) = true
        have hp : likeMatchAux (f2 + 1) ([] ++ ['%']) ('%' :: ([] ++ [])) = true := by
          exact likeMatchAux_percent ['%'] (f2 + 1) (by simp at hf ⊢; omega)
        rw [hp]
        simp
      · show (likeMatchAux (f2 + 1) (cs ++ ['%']) ('%' :: x :: xs) ||
          likeMatchAux (f2 + 1) ('%' :: (cs ++ ['%'])) (x :: xs)) = true
        have h2 : likeMatchAux (f2 + 1) ('%' :: (cs ++ ['%'])) (x :: xs) = true := by
          rw [likeMatchAux_cons, if_pos rfl]
          show (likeMatchAux f2 (cs ++ ['%']) (x :: xs) ||
            likeMatchAux f2 ('%' :: (cs ++ ['%'])) xs) = true
          rw [← hct, ih t f2 (by simp at hf; omega)]
          simp
        rw [h2]
        simp
    · rw [if_neg hc]
      by_cases hu : c = '_'
      · subst hu
        show (if '_' = '_' then likeMatchAux f (cs ++ ['%']) (cs ++ t) else _) = true
        rw [if_pos rfl]
        exact ih t f (by simp at hf; omega)
      · show (if c = '_' then _ else
          (likeFoldChar c == likeFoldChar c) && likeMatchAux f (cs ++ ['%']) (cs ++ t)) = true
        rw [if_neg hu, ih t f (by simp at hf; omega)]
        simp

/-- `LIKE` with a trailing `%`: the pattern `a ++ "%"` matches every string
`a ++ tail`. -/
theorem sqlLike_append_percent (a tail : String) :
    sqlLike (a ++ "%") (a ++ tail) = true := by
  unfold sqlLike
  have hpat : (a ++ "%").toList = a.toList ++ ['%'] := String.data_append a "%"
  have hs : (a ++ tail).toList = a.toList ++ tail.toList := String.data_append a tail
  rw [hpat, hs]
  apply likeMatchAux_self_extend
  have h1 : (a ++ "%").length = a.toList.length + 1 := by
    show (a ++ "%").data.length = a.data.length + 1
    rw [String.data_append]
    simp
  have h2 : (a ++ tail).length = a.toList.length + tail.toList.length := by
    show (a ++ tail).data.length = a.data.length + tail.data.length
    rw [String.data_append]
    simp
  rw [h1, h2]
  omega

/-- C7 (amended): for a directory `d`, `rmdir(d)` fails `ENOTEMPTY` (leaving
the store unchanged) exactly when some other `chunk_index = 0` row's path
matches the SQLite `LIKE` pattern `d + "/%"` — `%`/`_` act as wildcards and
ASCII letters compare case-insensitively, so this can strictly exceed the
plain-prefix test — and otherwise succeeds, deleting exactly the
`chunk_index = 0` row of `d`.  In particular every row whose path strictly
extends `d + "/"` still blocks removal. -/
theorem rmdir_spec (pl : PathLib) (st : Store) (d : String) (row : Row)
    (hmeta : metaRow st (pl.normalize d) = some row) (hdir : row.type = .directory) :
    ((st.any (fun r =>
        sqlLike ((if jsEndsWith (pl.normalize d) "/" then pl.normalize d
          else pl.normalize d ++ "/") ++ "%") r.path &&
        r.path != pl.normalize d && r.chunkIndex == 0)) = true →
      rmdir pl st d = .error .ENOTEMPTY) ∧
    ((st.any (fun r =>
        sqlLike ((if jsEndsWith (pl.normalize d) "/" then pl.normalize d
          else pl.normalize d ++ "/") ++ "%") r.path &&
        r.path != pl.normalize d && r.chunkIndex == 0)) = false →
      rmdir pl st d =
        .ok (st.filter (fun r => ¬ (r.path = pl.normalize d ∧ r.chunkIndex = 0)))) ∧
    (∀ r ∈ st, ∀ tail : String, r.path = pl.normalize d ++ "/" ++ tail →
      r.path ≠ pl.normalize d → r.chunkIndex = 0 →
      rmdir pl st d = .error .ENOTEMPTY) := by
  have hstep : ∀ b : Bool,
      (st.any (fun r =>
        sqlLike ((if jsEndsWith (pl.normalize d) "/" then pl.normalize d
          else pl.normalize d ++ "/") ++ "%") r.path &&
        r.path != pl.normalize d && r.chunkIndex == 0)) = b →
      rmdir pl st d = (if b then .error .ENOTEMPTY
        else .ok (st.filter (fun r => ¬ (r.path = pl.normalize d ∧ r.chunkIndex = 0)))) := by
    intro b hb
    unfold rmdir
    dsimp only
    rw [hmeta]
    dsimp only
    rw [hdir]
    rw [if_neg (by simp)]
    rw [hb]
  refine ⟨fun h => by simpa using hstep true h,
    fun h => by simpa using hstep false h,
    fun r hr tail htail hne hidx => ?_⟩
  have hlike : sqlLike ((if jsEndsWith (pl.normalize d) "/" then pl.normalize d
      else pl.normalize d ++ "/") ++ "%") r.path = true := by
    by_cases hslash : jsEndsWith (pl.normalize d) "/"
    · rw [if_pos hslash, htail, String.append_assoc]
      exact sqlLike_append_percent (pl.normalize d) ("/" ++ tail)
    · rw [if_neg hslash, htail]
      exact sqlLike_append_percent (pl.normalize d ++ "/") tail
  have hany : (st.any (fun r =>
      sqlLike ((if jsEndsWith (pl.normalize d) "/" then pl.normalize d
        else pl.normalize d ++ "/") ++ "%") r.path &&
      r.path != pl.normalize d && r.chunkIndex == 0)) = true := by
    rw [List.any_eq_true]
    exact ⟨r, hr, by simp [hlike, hidx, bne_iff_ne, hne]⟩
  simpa using hstep true hany

/-- Witness for C7: a populated directory is refused, an empty one removed. -/
theorem rmdir_spec_witness :
    rmdir litPathLib
      [⟨"d", 0, .directory, none, 493, "t0", 0⟩, ⟨"d/x", 0, .file, some [118], 420, "t0", 1⟩]
      "d" = .error .ENOTEMPTY ∧
    rmdir litPathLib [⟨"d", 0, .directory, none, 493, "t0", 0⟩] "d" =
      .ok [] := by
  constructor
  · exact (rmdir_spec litPathLib
      [⟨"d", 0, .directory, none, 493, "t0", 0⟩, ⟨"d/x", 0, .file, some [118], 420, "t0", 1⟩]
      "d" ⟨"d", 0, .directory, none, 493, "t0", 0⟩ (by decide) rfl).1 (by decide)
  · exact (rmdir_spec litPathLib [⟨"d", 0, .directory, none, 493, "t0", 0⟩]
      "d" ⟨"d", 0, .directory, none, 493, "t0", 0⟩ (by decide) rfl).2.1 (by decide)

/-- Counterexample to C7 as stated: in a store reachable via
`mkdir("a_b"); mkdir("axb"); write("axb/f")`, no row is strictly prefixed by
`"a_b/"`, yet `rmdir("a_b")` fails `ENOTEMPTY`, because the SQL emptiness
probe uses `LIKE 'a_b/%'` and `_` matches the `x` of `axb/f`. -/
theorem rmdir_strict_prefix_counterexample :
    (∀ r ∈ ([⟨"a_b", 0, .directory, none, 493, "t0", 0⟩,
        ⟨"axb", 0, .directory, none, 493, "t0", 0⟩,
        ⟨"axb/f", 0, .file, some [118], 420, "t0", 1⟩] : Store),
      ("a_b/").toList.isPrefixOf r.path.toList = false) ∧
    metaRow [⟨"a_b", 0, .directory, none, 493, "t0", 0⟩,
        ⟨"axb", 0, .directory, none, 493, "t0", 0⟩,
        ⟨"axb/f", 0, .file, some [118], 420, "t0", 1⟩] "a_b"
      = some ⟨"a_b", 0, .directory, none, 493, "t0", 0⟩ ∧
    rmdir litPathLib
      [⟨"a_b", 0, .directory, none, 493, "t0", 0⟩,
        ⟨"axb", 0, .directory, none, 493, "t0", 0⟩,
        ⟨"axb/f", 0, .file, some [118], 420, "t0", 1⟩]
      "a_b" = .error .ENOTEMPTY := by
  exact ⟨by decide, by decide, rfl⟩

/-! ## Claim C1 -/

/-- `updateRefs` processes commands left to right, threading the ref state. -/
theorem updateRefs_append (B : GitBackend) (r : Repo) (l1 l2 : List RefUpdate) :
    updateRefs B r (l1 ++ l2) =
      ((updateRefs B r l1).1 ++ (updateRefs B (updateRefs B r l1).2 l2).1,
        (updateRefs B (updateRefs B r l1).2 l2).2) := by
  induction l1 generalizing r with
  | nil => rfl
  | cons u rest ih =>
    simp only [List.cons_append, updateRefs]
    by_cases h1 : jsStartsWith u.ref "refs/" <;>
      by_cases h2 : u.oldOid = resolveRefOrZero r u.ref <;>
      simp [h1, h2, ih]

/-- Concatenating the literal pieces of an `ng ... non-fast-forward` report
line. -/
theorem ngLine_eq (s : String) :
    "ng " ++ s ++ " " ++ "non-fast-forward" ++ "\n" = "ng " ++ s ++ " non-fast-forward\n" := by
  rw [String.append_assoc ("ng " ++ s) " " "non-fast-forward",
    String.append_assoc ("ng " ++ s) (" " ++ "non-fast-forward") "\n"]
  have hlit : (" " ++ "non-fast-forward") ++ "\n" = " non-fast-forward\n" := by decide
  rw [hlit]

/-- C1 (amended): a command whose ref name starts with `refs/` and whose
`oldOid` differs from the ref's resolved OID at the moment the command is
applied (the all-zero OID when it does not resolve) yields
`ng <ref> non-fast-forward` in the report and leaves the entire ref state
unchanged across that command, whatever the sibling commands and however the
ref backend behaves; whenever the report encodes (every line fits a pkt-line
frame, as for any ref name below about 64 KiB), the encoded
`ng <ref> non-fast-forward` line sits contiguously in the response bytes.
(Commands whose name lacks the `refs/` prefix are rejected as `invalid ref`
before the fast-forward check.) -/
theorem updateRefs_nonfastforward (B : GitBackend) (r : Repo) (pre post : List RefUpdate)
    (u : RefUpdate) (href : jsStartsWith u.ref "refs/" = true)
    (hmis : u.oldOid ≠ resolveRefOrZero (updateRefs B r pre).2 u.ref) :
    updateRefs B r (pre ++ u :: post) =
      ((updateRefs B r pre).1 ++ .ng u.ref "non-fast-forward" ::
        (updateRefs B (updateRefs B r pre).2 post).1,
        (updateRefs B (updateRefs B r pre).2 post).2) ∧
    (∀ bytes, buildReportStatus .ok (updateRefs B r (pre ++ u :: post)).1 = .ok bytes →
      ∃ enc s t, encodePktLine (utf8Encode ("ng " ++ u.ref ++ " non-fast-forward\n")) =
        .ok enc ∧ s ++ enc ++ t = bytes) := by
  have hstep : updateRefs B (updateRefs B r pre).2 (u :: post) =
      (.ng u.ref "non-fast-forward" :: (updateRefs B (updateRefs B r pre).2 post).1,
        (updateRefs B (updateRefs B r pre).2 post).2) := by
    simp only [updateRefs, href, not_true_eq_false, if_false, ne_eq, hmis, not_false_eq_true,
      if_true]
  have hmain : updateRefs B r (pre ++ u :: post) =
      ((updateRefs B r pre).1 ++ .ng u.ref "non-fast-forward" ::
        (updateRefs B (updateRefs B r pre).2 post).1,
        (updateRefs B (updateRefs B r pre).2 post).2) := by
    rw [updateRefs_append, hstep]
  refine ⟨hmain, ?_⟩
  intro bytes hb
  rw [hmain] at hb
  obtain ⟨ls, hls, hflat⟩ := buildReportStatus_ok_elim _ _ _ hb
  unfold reportLines at hls
  cases hh : encodePktLine (utf8Encode (unpackLine .ok)) with
  | error e =>
    rw [hh] at hls
    cases hls
  | ok headLine =>
    rw [hh] at hls
    dsimp only at hls
    cases ha : encodeAll ((updateRefs B r pre).1 ++ .ng u.ref "non-fast-forward" ::
        (updateRefs B (updateRefs B r pre).2 post).1) with
    | error e =>
      rw [ha] at hls
      cases hls
    | ok rest =>
      rw [ha] at hls
      have hlseq : headLine :: (rest ++ [encodePktFlush]) = ls := Except.ok.inj hls
      have hxmem : RefUpdateResult.ng u.ref "non-fast-forward" ∈
          (updateRefs B r pre).1 ++ .ng u.ref "non-fast-forward" ::
            (updateRefs B (updateRefs B r pre).2 post).1 :=
        List.mem_append.mpr (Or.inr (List.mem_cons_self _ _))
      obtain ⟨enc, henc, hmem⟩ := encodeAll_mem _ _ ha _ hxmem
      have henc2 : encodePktLine (utf8Encode ("ng " ++ u.ref ++ " non-fast-forward\n")) =
          .ok enc := by
        rw [show ("ng " ++ u.ref ++ " non-fast-forward\n") =
          reportLine (.ng u.ref "non-fast-forward") from (ngLine_eq u.ref).symm]
        exact henc
      have hmemls : enc ∈ ls :=
        hlseq ▸ List.mem_cons_of_mem _ (List.mem_append_left _ hmem)
      obtain ⟨s, t, hst⟩ := flatten_eq_of_mem _ _ hmemls
      exact ⟨enc, s, t, henc2, by rw [hst, hflat]⟩

/-- Witness for C1 at a concrete mismatching push command. -/
theorem updateRefs_nonfastforward_witness :
    updateRefs modelBackend ⟨[], "refs/heads/main"⟩
        [⟨"1111111111111111111111111111111111111111",
          "2222222222222222222222222222222222222222", "refs/heads/x"⟩] =
      ([.ng "refs/heads/x" "non-fast-forward"], ⟨[], "refs/heads/main"⟩) ∧
    (∃ enc s t, encodePktLine (utf8Encode ("ng " ++ "refs/heads/x" ++ " non-fast-forward\n")) =
      .ok enc ∧ s ++ enc ++ t =
        (buildReportStatus .ok (updateRefs modelBackend ⟨[], "refs/heads/main"⟩
          [⟨"1111111111111111111111111111111111111111",
            "2222222222222222222222222222222222222222", "refs/heads/x"⟩]).1).toOption.getD []) := by
  have h := updateRefs_nonfastforward modelBackend ⟨[], "refs/heads/main"⟩ [] []
    ⟨"1111111111111111111111111111111111111111",
      "2222222222222222222222222222222222222222", "refs/heads/x"⟩
    (by decide) (by decide)
  refine ⟨by simpa using h.1, ?_⟩
  have h2 := h.2 ((buildReportStatus .ok (updateRefs modelBackend ⟨[], "refs/heads/main"⟩
      ([] ++ [⟨"1111111111111111111111111111111111111111",
        "2222222222222222222222222222222222222222", "refs/heads/x"⟩])).1).toOption.getD [])
    (by rfl)
  simpa using h2

/-- Counterexample to C1 as stated: a command whose `oldOid` mismatches but
whose name lacks the `refs/` prefix is reported `ng <ref> invalid ref`; its
successfully encoded response contains no `ng <ref> non-fast-forward` line. -/
theorem updateRefs_mismatch_invalid_ref_counterexample :
    ("1111111111111111111111111111111111111111" : String) ≠
      resolveRefOrZero ⟨[], "refs/heads/main"⟩ "HEAD" ∧
    updateRefs modelBackend ⟨[], "refs/heads/main"⟩
        [⟨"1111111111111111111111111111111111111111",
          "2222222222222222222222222222222222222222", "HEAD"⟩] =
      ([.ng "HEAD" "invalid ref"], ⟨[], "refs/heads/main"⟩) ∧
    (buildReportStatus .ok (updateRefs modelBackend ⟨[], "refs/heads/main"⟩
        [⟨"1111111111111111111111111111111111111111",
          "2222222222222222222222222222222222222222", "HEAD"⟩]).1).isOk = true ∧
    ¬ ((encodePktLine (utf8Encode ("ng " ++ "HEAD" ++ " non-fast-forward\n"))).toOption.getD []
      <:+:
      (buildReportStatus .ok (updateRefs modelBackend ⟨[], "refs/heads/main"⟩
        [⟨"1111111111111111111111111111111111111111",
          "2222222222222222222222222222222222222222", "HEAD"⟩]).1).toOption.getD []) := by
  refine ⟨by decide, by decide, by decide, by decide⟩

/-! ## Claim C8 -/

/-- C8: after a `receivePack` whose pack step succeeded (the only case in
which `receivePack` invokes the HEAD fixup), HEAD is retargeted only when it
does not resolve to any OID and at least one `refs/heads/*` command succeeded:
the symbolic target becomes `refs/heads/main` when that ref is among the
successes and otherwise the first successful branch in input order (the
results list of `updateRefs` lists requested refs in input order); in
every other case the repository is left untouched. -/
theorem maybeUpdateHead_spec (r : Repo) (results : List RefUpdateResult) :
    (resolveRefOrZero r "HEAD" ≠ ZERO_OID → maybeUpdateHeadAfterPush r results = r) ∧
    (resolveRefOrZero r "HEAD" = ZERO_OID → headCandidates results = [] →
      maybeUpdateHeadAfterPush r results = r) ∧
    (resolveRefOrZero r "HEAD" = ZERO_OID → ∀ c cs, headCandidates results = c :: cs →
      maybeUpdateHeadAfterPush r results =
        { r with headTarget :=
            if (c :: cs).contains "refs/heads/main" then "refs/heads/main" else c }) ∧
    (∀ (B : GitBackend) (r0 : Repo) (cmds : List RefUpdate),
      ((updateRefs B r0 cmds).1.map RefUpdateResult.refName) = cmds.map RefUpdate.ref) := by
  refine ⟨fun h => ?_, fun h hc => ?_, fun h c cs hc => ?_, fun B r0 cmds => ?_⟩
  · unfold maybeUpdateHeadAfterPush
    rw [if_pos h]
  · unfold maybeUpdateHeadAfterPush
    rw [if_neg (by simp [h])]
    split
    · rfl
    · next c cs hc2 => rw [hc] at hc2; cases hc2
  · unfold maybeUpdateHeadAfterPush
    rw [if_neg (by simp [h])]
    split
    · next hc2 => rw [hc] at hc2; cases hc2
    · next x xs hc2 =>
      rw [hc] at hc2
      injection hc2 with h1 h2
      subst h1
      subst h2
      rfl
  · induction cmds generalizing r0 with
    | nil => rfl
    | cons u rest ih =>
      simp only [updateRefs, List.map_cons]
      by_cases h1 : jsStartsWith u.ref "refs/"
      · by_cases h2 : u.oldOid = resolveRefOrZero r0 u.ref
        · by_cases h3 : u.newOid = ZERO_OID
          · rcases hB : B.deleteRef r0 u.ref with r1 | m <;>
              simp [h1, h2, h3, hB, ih, RefUpdateResult.refName]
          · rcases hB : B.writeRef r0 u.ref u.newOid with r1 | m <;>
              simp [h1, h2, h3, hB, ih, RefUpdateResult.refName]
        · simp [h1, h2, ih, RefUpdateResult.refName]
      · simp [h1, ih, RefUpdateResult.refName]

/-- Witness for C8: HEAD unborn, one successful branch push that is not
`main` — HEAD's symbolic target becomes that branch. -/
theorem maybeUpdateHead_spec_witness :
    maybeUpdateHeadAfterPush ⟨[], "refs/heads/main"⟩ [.ok "refs/heads/dev"] =
      ⟨[], "refs/heads/dev"⟩ := by
  have h := (maybeUpdateHead_spec ⟨[], "refs/heads/main"⟩ [.ok "refs/heads/dev"]).2.2.1
    (by decide) "refs/heads/dev" [] (by decide)
  exact h.trans (by decide)

/-! ## Claim C2 -/

/-- The oversized-pack pipeline equation: the response is the encoding of
the all-ng report, paired with the unchanged ref state. -/
theorem receivePack_oversized_eq (B : GitBackend) (idx : IndexOracle) (r : Repo)
    (data : List Nat) (commandLines : List (List Nat)) (offset : Nat)
    (hparse : readPktLinesUntilFlush data 0 = .ok (commandLines, offset))
    (hsig : (data.drop offset).take 4 = [0x50, 0x41, 0x43, 0x4B])
    (hbig : MAX_PACK_SIZE < (data.drop offset).length) :
    receivePack B idx r data =
      (buildReportStatus (.fail "error: pack too large")
        ((parseRefUpdates (commandLines.map decodePktText)).map
          (fun u => RefUpdateResult.ng u.ref "unpack failed"))).map
        (fun bytes => (bytes, r)) := by
  unfold receivePack
  rw [hparse]
  have h4 : 4 ≤ (data.drop offset).length := by
    unfold MAX_PACK_SIZE at hbig
    omega
  have hhp : (decide (4 ≤ (data.drop offset).length) &&
      ((data.drop offset).take 4 == [0x50, 0x41, 0x43, 0x4B])) = true := by
    have h4b : 4 ≤ data.length - offset := by simpa using h4
    simp [h4b, hsig]
  dsimp only
  rw [hhp]
  have hpack : processPackfile idx r (data.drop offset) = (.fail "error: pack too large", r) := by
    unfold processPackfile
    rw [if_pos hbig]
  rw [if_pos rfl, hpack]

/-- C2 (amended): when the post-flush bytes carry the `PACK` signature and
exceed `MAX_PACK_SIZE`, `receivePack` performs no ref update (the size check
precedes any write) and returns exactly the encoding of the report headed by
`unpack error: pack too large` with every requested ref reported
`ng <ref> unpack failed`, paired with the unchanged ref state — provided that
report encodes, i.e. every parsed ref name is short enough for its `ng` line
to fit a pkt-line frame; otherwise `encodePktLine`'s exception escapes and no
response is produced (see the counterexample). -/
theorem receivePack_oversized (B : GitBackend) (idx : IndexOracle) (r : Repo)
    (data : List Nat) (commandLines : List (List Nat)) (offset : Nat)
    (hparse : readPktLinesUntilFlush data 0 = .ok (commandLines, offset))
    (hsig : (data.drop offset).take 4 = [0x50, 0x41, 0x43, 0x4B])
    (hbig : MAX_PACK_SIZE < (data.drop offset).length) :
    receivePack B idx r data =
      (buildReportStatus (.fail "error: pack too large")
        ((parseRefUpdates (commandLines.map decodePktText)).map
          (fun u => RefUpdateResult.ng u.ref "unpack failed"))).map
        (fun bytes => (bytes, r)) ∧
    (∀ out, receivePack B idx r data = .ok out → out.2 = r ∧
      ∃ hd tl, encodePktLine (utf8Encode ("unpack " ++ "error: pack too large" ++ "\n")) =
        .ok hd ∧ out.1 = hd ++ tl) := by
  have hmain := receivePack_oversized_eq B idx r data commandLines offset hparse hsig hbig
  refine ⟨hmain, ?_⟩
  intro out hout
  rw [hmain] at hout
  cases hres : buildReportStatus (.fail "error: pack too large")
      ((parseRefUpdates (commandLines.map decodePktText)).map
        (fun u => RefUpdateResult.ng u.ref "unpack failed")) with
  | error e =>
    rw [hres] at hout
    cases hout
  | ok bytes =>
    rw [hres] at hout
    have hopair : (bytes, r) = out := Except.ok.inj hout
    obtain ⟨ls, hls, hflat⟩ := buildReportStatus_ok_elim _ _ _ hres
    unfold reportLines at hls
    cases hh : encodePktLine (utf8Encode (unpackLine (.fail "error: pack too large"))) with
    | error e =>
      rw [hh] at hls
      cases hls
    | ok headLine =>
      rw [hh] at hls
      dsimp only at hls
      cases ha : encodeAll ((parseRefUpdates (commandLines.map decodePktText)).map
          (fun u => RefUpdateResult.ng u.ref "unpack failed")) with
      | error e =>
        rw [ha] at hls
        cases hls
      | ok rest =>
        rw [ha] at hls
        have hlseq : headLine :: (rest ++ [encodePktFlush]) = ls := Except.ok.inj hls
        refine ⟨by rw [← hopair], headLine, (rest ++ [encodePktFlush]).flatten, hh, ?_⟩
        rw [← hopair]
        dsimp only
        rw [hflat, ← hlseq, List.flatten_cons]

/-- The oversized packfile body used in the C2 witness: the `PACK` signature
followed by enough zero bytes to exceed `MAX_PACK_SIZE` by one. -/
def bigPack : List Nat := 0x50 :: 0x41 :: 0x43 :: 0x4B :: List.replicate 31457277 0

/-- `bigPack` is one byte over the ceiling. -/
theorem bigPack_length : bigPack.length = 31457281 := by
  have h1 : bigPack = 0x50 :: 0x41 :: 0x43 :: 0x4B :: List.replicate 31457277 0 := rfl
  rw [h1, List.length_cons, List.length_cons, List.length_cons, List.length_cons,
    List.length_replicate]

/-- Length of the framed C2 witness body. -/
theorem bigPack_framed_length :
    (48 :: 48 :: 48 :: 48 :: bigPack : List Nat).length = 31457285 := by
  rw [List.length_cons, List.length_cons, List.length_cons, List.length_cons, bigPack_length]

/-- The C2 witness body parses as an empty command section ending at offset
4. -/
theorem bigPack_framed_parse :
    readPktLinesUntilFlush (48 :: 48 :: 48 :: 48 :: bigPack) 0 = .ok ([], 4) := by
  unfold readPktLinesUntilFlush
  rw [dif_pos (by rw [bigPack_framed_length]; omega)]
  have hdec : decodePktLineLength
      (listSlice (48 :: 48 :: 48 :: 48 :: bigPack) 0 (0 + 4)) = .ok 0 := rfl
  rw [hdec]
  rfl

/-- Witness for C2: an empty command section followed by an oversized signed
packfile; the (empty-result) report encodes, so a response is produced and
the ref state returned unchanged. -/
theorem receivePack_oversized_witness :
    receivePack modelBackend (fun rp _ => .ok rp) ⟨[], "refs/heads/main"⟩
        (48 :: 48 :: 48 :: 48 :: bigPack) =
      (buildReportStatus (.fail "error: pack too large") []).map
        (fun bytes => (bytes, (⟨[], "refs/heads/main"⟩ : Repo))) ∧
    (buildReportStatus (.fail "error: pack too large")
      ([] : List RefUpdateResult)).isOk = true := by
  have hsig : (((48 :: 48 :: 48 :: 48 :: bigPack) : List Nat).drop 4).take 4 =
      [0x50, 0x41, 0x43, 0x4B] := rfl
  have hbig : MAX_PACK_SIZE <
      (((48 :: 48 :: 48 :: 48 :: bigPack) : List Nat).drop 4).length := by
    rw [show ((48 :: 48 :: 48 :: 48 :: bigPack) : List Nat).drop 4 = bigPack from rfl,
      bigPack_length]
    rw [MAX_PACK_SIZE]
    omega
  have h := receivePack_oversized modelBackend (fun rp _ => .ok rp) ⟨[], "refs/heads/main"⟩
    (48 :: 48 :: 48 :: 48 :: bigPack) [] 4 bigPack_framed_parse hsig hbig
  refine ⟨?_, by decide⟩
  rw [h.1]
  rfl

/-! ## Claim C4 -/

/-- C4 (amended): once the leading pkt-line command section up to a flush is
well-formed — `readPktLinesUntilFlush` succeeds — the only exception
`receivePack` can still raise is `encodePktLine`'s `pkt-line too long` while
encoding a report line whose framed length exceeds `0xffff` (reachable with a
parsed ref name of about 64 KiB); every pack-indexing failure and failed ref
write is absorbed into the report (whole-response `unpack` failure or per-ref
`ng` lines).  A malformed or unterminated command section, however, makes
`readPktLinesUntilFlush` throw and that exception escapes `receivePack` (see
the counterexample). -/
theorem receivePack_total_after_framing (B : GitBackend) (idx : IndexOracle) (r : Repo)
    (data : List Nat) (pr : List (List Nat) × Nat)
    (hparse : readPktLinesUntilFlush data 0 = .ok pr) :
    (∃ out, receivePack B idx r data = .ok out) ∨
      receivePack B idx r data = .error "pkt-line too long" := by
  obtain ⟨lines, off⟩ := pr
  cases hout : receivePack B idx r data with
  | ok out => exact Or.inl ⟨out, rfl⟩
  | error e =>
    refine Or.inr ?_
    have he := hout
    unfold receivePack at he
    rw [hparse] at he
    dsimp only at he
    have hrep := except_map_error_elim _ _ _ he
    rw [buildReportStatus_error_msg _ _ _ hrep]

/-- Witness for C4 on a body that is just a flush. -/
theorem receivePack_total_after_framing_witness :
    (∃ out, receivePack modelBackend (fun rp _ => .ok rp) ⟨[], "refs/heads/main"⟩
      [48, 48, 48, 48] = .ok out) ∨
    receivePack modelBackend (fun rp _ => .ok rp) ⟨[], "refs/heads/main"⟩
      [48, 48, 48, 48] = .error "pkt-line too long" := by
  apply receivePack_total_after_framing modelBackend (fun rp _ => .ok rp)
    ⟨[], "refs/heads/main"⟩ [48, 48, 48, 48] ([], 4)
  unfold readPktLinesUntilFlush
  norm_num [listSlice]
  rfl

/-- Counterexample to C4 as stated: the empty body (no flush at all) makes
`receivePack` throw `expected pkt-line flush` to its caller instead of
reporting in-band. -/
theorem receivePack_throws_counterexample :
    receivePack modelBackend (fun rp _ => .ok rp) ⟨[], "refs/heads/main"⟩ [] =
      .error "expected pkt-line flush" := by
  have hp : readPktLinesUntilFlush ([] : List Nat) 0 = .error "expected pkt-line flush" := by
    unfold readPktLinesUntilFlush
    norm_num
  unfold receivePack
  rw [hp]

/-! ## Claim C5 -/

/-- The characters `toString(16)` emits for one hex digit: not whitespace, not
a sign, not `x`/`X`, below 128, and `hexDigitVal` reads the digit back. -/
theorem hexChar_spec_fin : ∀ d : Fin 16,
    isJsWhitespace (hexChar d.val) = false ∧ hexChar d.val ≠ '-' ∧ hexChar d.val ≠ '+' ∧
    hexChar d.val ≠ 'x' ∧ hexChar d.val ≠ 'X' ∧ (hexChar d.val).toNat < 128 ∧
    hexDigitVal (hexChar d.val) = some d.val := by decide

/-- `hexChar_spec_fin` restated over bounded naturals. -/
theorem hexChar_spec (d : Nat) (hd : d < 16) :
    isJsWhitespace (hexChar d) = false ∧ hexChar d ≠ '-' ∧ hexChar d ≠ '+' ∧
    hexChar d ≠ 'x' ∧ hexChar d ≠ 'X' ∧ (hexChar d).toNat < 128 ∧
    hexDigitVal (hexChar d) = some d := hexChar_spec_fin ⟨d, hd⟩

/-- `utf8Decode` is the identity on UTF-8-encoded ASCII text. -/
theorem utf8Decode_ascii (cs : List Char) (h : ∀ c ∈ cs, c.toNat < 128) :
    utf8Decode (cs.map Char.toNat) = cs := by
  suffices haux : ∀ (fuel : Nat) (l : List Char), (∀ c ∈ l, c.toNat < 128) →
      l.length ≤ fuel → utf8DecodeAux fuel (l.map Char.toNat) = l by
    unfold utf8Decode
    rw [List.length_map]
    exact haux cs.length cs h le_rfl
  intro fuel
  induction fuel with
  | zero =>
    intro l hl hlen
    cases l with
    | nil => rfl
    | cons c r => simp at hlen
  | succ f ih =>
    intro l hl hlen
    cases l with
    | nil => rfl
    | cons c r =>
      simp only [List.map_cons, utf8DecodeAux]
      have hstep : utf8Step c.toNat (r.map Char.toNat) =
          (Char.ofNat c.toNat, r.map Char.toNat) := by
        unfold utf8Step
        rw [if_pos (hl c (List.mem_cons_self c r))]
      rw [hstep, Char.ofNat_toNat]
      rw [ih r (fun x hx => hl x (List.mem_cons_of_mem c hx)) (by simpa using hlen)]

/-- `parseInt` reads back the four lowercase hex digits `toHex4` produces. -/
theorem jsParseInt16_toHex4 (n : Nat) (h : n < 65536) :
    jsParseInt16 (toHex4 n) = some (n : Int) := by
  have f3 := hexChar_spec (n / 4096 % 16) (Nat.mod_lt _ (by norm_num))
  have f2 := hexChar_spec (n / 256 % 16) (Nat.mod_lt _ (by norm_num))
  have f1 := hexChar_spec (n / 16 % 16) (Nat.mod_lt _ (by norm_num))
  have f0 := hexChar_spec (n % 16) (Nat.mod_lt _ (by norm_num))
  have hdw : (toHex4 n).dropWhile isJsWhitespace = toHex4 n := by
    unfold toHex4
    rw [List.dropWhile_cons, if_neg (by rw [f3.1]; simp)]
  unfold jsParseInt16
  rw [hdw]
  unfold toHex4
  dsimp only
  have hno1 : ¬ (hexChar (n / 4096 % 16) = '-') := f3.2.1
  have hno2 : ¬ (hexChar (n / 4096 % 16) = '-' ∨ hexChar (n / 4096 % 16) = '+') := by
    rintro (hx | hx)
    · exact f3.2.1 hx
    · exact f3.2.2.1 hx
  have hno3 : ¬ (hexChar (n / 4096 % 16) = '0' ∧
      (hexChar (n / 256 % 16) = 'x' ∨ hexChar (n / 256 % 16) = 'X')) := by
    rintro ⟨_, hx | hx⟩
    · exact f2.2.2.2.1 hx
    · exact f2.2.2.2.2.1 hx
  simp only [if_neg hno1, if_neg hno2]
  simp only [stripHexMark]
  simp only [if_neg hno3]
  simp only [List.takeWhile_cons, f3.2.2.2.2.2.2, f2.2.2.2.2.2.2, f1.2.2.2.2.2.2,
    f0.2.2.2.2.2.2, Option.isSome_some, if_true, List.takeWhile_nil]
  rw [if_neg (by simp)]
  simp only [List.foldl_cons, List.foldl_nil, f3.2.2.2.2.2.2, f2.2.2.2.2.2.2,
    f1.2.2.2.2.2.2, f0.2.2.2.2.2.2, Option.getD_some]
  simp only [one_mul, Option.some.injEq, Nat.cast_inj]
  omega

/-- Every character `toHex4` emits is ASCII. -/
theorem toHex4_ascii (n : Nat) : ∀ c ∈ toHex4 n, c.toNat < 128 := by
  intro c hc
  unfold toHex4 at hc
  simp only [List.mem_cons, List.not_mem_nil, or_false] at hc
  rcases hc with rfl | rfl | rfl | rfl
  · exact (hexChar_spec _ (Nat.mod_lt _ (by norm_num))).2.2.2.2.2.1
  · exact (hexChar_spec _ (Nat.mod_lt _ (by norm_num))).2.2.2.2.2.1
  · exact (hexChar_spec _ (Nat.mod_lt _ (by norm_num))).2.2.2.2.2.1
  · exact (hexChar_spec _ (Nat.mod_lt _ (by norm_num))).2.2.2.2.2.1

/-- C5: decoding the buffer `encodePktLine` produces for a payload `s` with
`s.length + 4 ≤ 0xffff` yields exactly one unit — a data unit whose payload is
`s` — and `encodePktLine` rejects every payload with `s.length + 4 >
0xffff`. -/
theorem encodePktLine_roundtrip (s : List Nat) :
    (∀ out, encodePktLine s = .ok out →
      parsePktLines out 0 = .ok [⟨.data s, 0, s.length + 4⟩]) ∧
    (s.length + 4 > 0xffff → encodePktLine s = .error "pkt-line too long") := by
  constructor
  · intro out hout
    unfold encodePktLine at hout
    by_cases hgt : s.length + 4 > 0xffff
    · rw [if_pos hgt] at hout
      cases hout
    · rw [if_neg hgt] at hout
      injection hout with hout
      subst hout
      have hpfxlen : ((toHex4 (s.length + 4)).map Char.toNat).length = 4 := by
        simp [toHex4]
      have houtlen : ((toHex4 (s.length + 4)).map Char.toNat ++ s).length = s.length + 4 := by
        rw [List.length_append, hpfxlen]
        omega
      have hslice0 : listSlice ((toHex4 (s.length + 4)).map Char.toNat ++ s) 0 (0 + 4) =
          (toHex4 (s.length + 4)).map Char.toNat := by
        unfold listSlice
        rw [List.drop_zero, show (0 + 4) = ((toHex4 (s.length + 4)).map Char.toNat).length
          from by rw [hpfxlen]]
        exact List.take_left _ _
      have hdec : decodePktLineLength ((toHex4 (s.length + 4)).map Char.toNat) =
          .ok (s.length + 4) := by
        unfold decodePktLineLength
        rw [if_neg (by rw [hpfxlen]; simp)]
        rw [utf8Decode_ascii (toHex4 (s.length + 4)) (toHex4_ascii (s.length + 4))]
        rw [jsParseInt16_toHex4 (s.length + 4) (by omega)]
        dsimp only
        rw [if_neg (by rintro (hx | hx) <;> omega)]
        congr 1
      unfold parsePktLines
      rw [dif_pos (by rw [houtlen]; omega), hslice0, hdec]
      dsimp only
      rw [if_neg (by omega), if_neg (by omega), if_neg (by omega)]
      rw [if_neg (by rw [houtlen]; omega)]
      have hrec : parsePktLines ((toHex4 (s.length + 4)).map Char.toNat ++ s)
          (0 + (s.length + 4)) = .ok [] := by
        unfold parsePktLines
        rw [dif_neg (by rw [houtlen]; omega)]
      have hpayload : listSlice ((toHex4 (s.length + 4)).map Char.toNat ++ s)
          (0 + 4) (0 + (s.length + 4)) = s := by
        unfold listSlice
        rw [show (0 + (s.length + 4)) = ((toHex4 (s.length + 4)).map Char.toNat ++ s).length
          from by rw [houtlen]; omega]
        rw [List.take_length]
        rw [show (0 + 4) = ((toHex4 (s.length + 4)).map Char.toNat).length
          from by rw [hpfxlen]]
        exact List.drop_left _ _
      rw [hrec, hpayload]
      simp only [Nat.zero_add]
      rfl
  · intro hgt
    unfold encodePktLine
    rw [if_pos hgt]

/-- Witness for C5: the payload `"a"` round-trips through one data unit, and a
payload of 65,532 bytes is rejected. -/
theorem encodePktLine_roundtrip_witness :
    parsePktLines [48, 48, 48, 53, 97] 0 = .ok [⟨.data [97], 0, 5⟩] ∧
    encodePktLine (List.replicate 65532 0) = .error "pkt-line too long" := by
  constructor
  · have h := (encodePktLine_roundtrip [97]).1 [48, 48, 48, 53, 97] rfl
    simpa using h
  · exact (encodePktLine_roundtrip (List.replicate 65532 0)).2
      (by rw [List.length_replicate]; omega)

/-! ## Claim C6 -/

/-- C6 (amended): at any position with at least four bytes left, the decoder
fails when the 4-byte prefix fails to parse under JS `parseInt` semantics or
parses negative (a merely non-hexadecimal prefix can still parse via its
leading digits), when the parsed length is 2 or 3, or when the parsed length
(at least 4) exceeds the bytes remaining; lengths 0 and 1 are the flush and
delimiter control units, not failures. -/
theorem parsePktLines_failures (input : List Nat) (off : Nat) (h4 : off + 4 ≤ input.length) :
    (∀ e, decodePktLineLength (listSlice input off (off + 4)) = .error e →
      parsePktLines input off = .error e) ∧
    (∀ n, decodePktLineLength (listSlice input off (off + 4)) = .ok n → (n = 2 ∨ n = 3) →
      parsePktLines input off = .error "invalid pkt-line length") ∧
    (∀ n, decodePktLineLength (listSlice input off (off + 4)) = .ok n → 4 ≤ n →
      input.length < off + n → parsePktLines input off = .error "truncated pkt-line") := by
  refine ⟨fun e he => ?_, fun n hn hn23 => ?_, fun n hn h4n htr => ?_⟩
  · unfold parsePktLines
    rw [dif_pos h4, he]
  · unfold parsePktLines
    rw [dif_pos h4, hn]
    dsimp only
    rcases hn23 with rfl | rfl
    · rw [if_neg (by omega), if_neg (by omega), if_pos (by omega)]
    · rw [if_neg (by omega), if_neg (by omega), if_pos (by omega)]
  · unfold parsePktLines
    rw [dif_pos h4, hn]
    dsimp only
    rw [if_neg (by omega), if_neg (by omega), if_neg (by omega), if_pos htr]

/-- Witness for C6: a non-parsing prefix, the invalid lengths 2 and 3, and a
truncating declared length each abort decoding. -/
theorem parsePktLines_failures_witness :
    parsePktLines [122, 122, 122, 122] 0 = .error "invalid pkt-line length" ∧
    parsePktLines [48, 48, 48, 50] 0 = .error "invalid pkt-line length" ∧
    parsePktLines [48, 48, 48, 51] 0 = .error "invalid pkt-line length" ∧
    parsePktLines [48, 48, 48, 53] 0 = .error "truncated pkt-line" := by
  refine ⟨?_, ?_, ?_, ?_⟩
  · exact (parsePktLines_failures [122, 122, 122, 122] 0 (by norm_num)).1
      "invalid pkt-line length" rfl
  · exact (parsePktLines_failures [48, 48, 48, 50] 0 (by norm_num)).2.1 2 rfl (Or.inl rfl)
  · exact (parsePktLines_failures [48, 48, 48, 51] 0 (by norm_num)).2.1 3 rfl (Or.inr rfl)
  · exact (parsePktLines_failures [48, 48, 48, 53] 0 (by norm_num)).2.2 5 rfl
      (by norm_num) (by norm_num)

/-- Counterexample to C6 as stated: a declared length of 1 (`"0001"`) is a
delimiter unit, not a failure, and the non-hexadecimal prefix `"00g5"` parses
as 0 under JS `parseInt` (trailing garbage ignored) and yields a flush
unit. -/
theorem parsePktLines_lenient_counterexample :
    parsePktLines [48, 48, 48, 49] 0 = .ok [⟨.delimiter, 0, 4⟩] ∧
    parsePktLines [48, 48, 103, 53] 0 = .ok [⟨.flush, 0, 4⟩] := by
  constructor
  · unfold parsePktLines
    rw [dif_pos (by norm_num)]
    rw [show decodePktLineLength (listSlice [48, 48, 48, 49] 0 (0 + 4)) = .ok 1 from rfl]
    dsimp only
    rw [if_neg (by omega), if_pos rfl]
    unfold parsePktLines
    rw [dif_neg (by norm_num)]
    rfl
  · unfold parsePktLines
    rw [dif_pos (by norm_num)]
    rw [show decodePktLineLength (listSlice [48, 48, 103, 53] 0 (0 + 4)) = .ok 0 from rfl]
    dsimp only
    rw [if_pos rfl]
    unfold parsePktLines
    rw [dif_neg (by norm_num)]
    rfl

/-! ## Claim C3 -/

/-- The effective cut points of `_writeFile`'s chunking, clamped to the buffer
length. -/
def gCut (n i : Nat) : Nat := min (chunkBoundary i) n

/-- The cut points are monotone. -/
theorem gCut_mono (n : Nat) : ∀ i, gCut n i ≤ gCut n (i + 1) := by
  intro i
  unfold gCut chunkBoundary
  exact min_le_min (Nat.div_le_div_right (Nat.mul_le_mul_right _ (by omega))) le_rfl

/-- The first cut point is 0. -/
theorem gCut_zero (n : Nat) : gCut n 0 = 0 := by
  unfold gCut chunkBoundary
  simp

/-- The last cut point reaches the buffer length. -/
theorem gCut_last (n : Nat) : gCut n (max 1 (chunkCount n)) = n := by
  unfold gCut chunkCount chunkBoundary CHUNK_NUM CHUNK_DEN
  omega

/-- Below the final chunk, the raw boundary is below the buffer length. -/
theorem chunkBoundary_lt (n i : Nat) (hi : i < max 1 (chunkCount n)) :
    chunkBoundary i ≤ n := by
  unfold chunkCount chunkBoundary CHUNK_NUM CHUNK_DEN at *
  omega

/-- Splitting one take/drop slice at an intermediate point. -/
theorem take_drop_split (l : List Nat) (a b c : Nat) (hab : a ≤ b) (hbc : b ≤ c) :
    (l.take c).drop a = (l.take b).drop a ++ (l.take c).drop b := by
  rw [List.drop_take c a l, List.drop_take b a l, List.drop_take c b l]
  rw [show l.drop b = (l.drop a).drop (b - a) from by rw [List.drop_drop]; congr 1; omega]
  rw [← List.take_add]
  congr 1
  omega

/-- Concatenating consecutive slices of a monotone cut sequence reassembles
the window between the first and last cut. -/
theorem flatten_chunks (data : List Nat) (g : Nat → Nat) (mono : ∀ i, g i ≤ g (i + 1)) :
    ∀ (cnt a : Nat),
      ((List.range' a cnt).map (fun i => (data.take (g (i + 1))).drop (g i))).flatten =
        (data.take (g (a + cnt))).drop (g a) := by
  have hm : Monotone g := monotone_nat_of_le_succ mono
  intro cnt
  induction cnt with
  | zero =>
    intro a
    simp only [Nat.add_zero, List.range'_zero, List.map_nil, List.flatten_nil]
    exact (List.drop_eq_nil_of_le (le_trans (List.length_take_le _ _) le_rfl)).symm
  | succ k ih =>
    intro a
    rw [List.range'_succ, List.map_cons, List.flatten_cons, ih (a + 1)]
    rw [show a + (k + 1) = a + 1 + k from by omega]
    exact (take_drop_split data (g a) (g (a + 1)) (g (a + 1 + k)) (mono a)
      (hm (by omega))).symm

/-- The inserted rows in unified form: one row per index below
`max 1 (chunkCount n)`, carrying the slice between consecutive raw
boundaries clamped at the end. -/
theorem writeChunkRows_eq (p : String) (data : List Nat) (mode : Nat) (mtime : String) :
    writeChunkRows p data mode mtime =
      (List.range' 0 (max 1 (chunkCount data.length))).map (fun i =>
        ⟨p, i, .file,
          some ((data.take (min (chunkBoundary (i + 1)) data.length)).drop (chunkBoundary i)),
          mode, mtime, data.length⟩) := by
  unfold writeChunkRows
  dsimp only
  by_cases hsm : data.length * CHUNK_DEN ≤ CHUNK_NUM
  · rw [if_pos hsm]
    have hcc : max 1 (chunkCount data.length) = 1 := by
      unfold chunkCount CHUNK_NUM CHUNK_DEN at *
      omega
    have hle : data.length ≤ chunkBoundary 1 := by
      unfold chunkBoundary CHUNK_NUM CHUNK_DEN at *
      omega
    rw [hcc]
    rw [show List.range' 0 1 = [0] from rfl]
    rw [List.map_cons, List.map_nil]
    have hcontent : (data.take (min (chunkBoundary (0 + 1)) data.length)).drop
        (chunkBoundary 0) = data := by
      rw [show chunkBoundary 0 = 0 from rfl, List.drop_zero,
        show (0 + 1) = 1 from rfl, min_eq_right hle, List.take_length]
    rw [hcontent]
  · rw [if_neg hsm]
    have hcc2 : 2 ≤ chunkCount data.length := by
      unfold chunkCount CHUNK_NUM CHUNK_DEN at *
      omega
    have hmax : max 1 (chunkCount data.length) = chunkCount data.length := by omega
    have hb1 : chunkBoundary 1 ≤ data.length := by
      unfold chunkBoundary CHUNK_NUM CHUNK_DEN at *
      omega
    rw [hmax]
    rw [show chunkCount data.length = (chunkCount data.length - 1) + 1 from by omega,
      List.range'_succ 0 (chunkCount data.length - 1) 1, List.map_cons]
    have hcontent : (data.take (min (chunkBoundary (0 + 1)) data.length)).drop
        (chunkBoundary 0) = data.take (chunkBoundary 1) := by
      rw [show chunkBoundary 0 = 0 from rfl, List.drop_zero,
        show (0 + 1) = 1 from rfl, min_eq_left hb1]
    rw [hcontent]
    rw [show (0 + 1) = 1 from rfl]
    rw [show chunkCount data.length - 1 + 1 - 1 = chunkCount data.length - 1 from by omega]

/-- C3: a successful `writeFile(path, buffer)` followed by `readFile(path)`
returns a byte-identical buffer; afterwards the store holds exactly
`max 1 ⌈n / CHUNK_SIZE⌉` rows for that path (`n` the buffer length), each
stamped with `total_size = n` and the write's `mtime`, every previously
stored row for the path having been deleted (the path's rows are exactly the
freshly inserted chunk rows, whatever the prior store contents). -/
theorem writeFile_readFile_roundtrip (pl : PathLib) (st : Store) (path : String)
    (data : List Nat) (mode : Nat) (mtime : String) (st2 : Store)
    (h : writeFile pl st path data mode mtime = .ok st2) :
    readFile pl st2 path = .ok data ∧
    (st2.filter (fun r => r.path == pl.normalize path)).length
      = max 1 (chunkCount data.length) ∧
    (∀ r ∈ st2, r.path = pl.normalize path →
      r.totalSize = data.length ∧ r.mtime = mtime) ∧
    st2.filter (fun r => r.path == pl.normalize path)
      = writeChunkRows (pl.normalize path) data mode mtime := by
  have hst2 := writeFile_ok_eq pl st path data mode mtime st2 h
  have hfilter : st2.filter (fun r => r.path == pl.normalize path)
      = writeChunkRows (pl.normalize path) data mode mtime := by
    rw [hst2, List.filter_append]
    have hleft : (st.filter (fun r => ¬ r.path = pl.normalize path)).filter
        (fun r => r.path == pl.normalize path) = [] := by
      rw [List.filter_eq_nil_iff]
      intro r hr
      have h2 := (List.mem_filter.mp hr).2
      simp only [decide_eq_true_eq] at h2
      simp only [beq_iff_eq]
      exact h2
    have hright : (writeChunkRows (pl.normalize path) data mode mtime).filter
        (fun r => r.path == pl.normalize path)
        = writeChunkRows (pl.normalize path) data mode mtime := by
      rw [List.filter_eq_self]
      intro r hr
      simp only [beq_iff_eq]
      exact (writeChunkRows_fields _ data mode mtime r hr).1
    rw [hleft, hright, List.nil_append]
  have hcount : (st2.filter (fun r => r.path == pl.normalize path)).length
      = max 1 (chunkCount data.length) := by
    rw [hfilter, writeChunkRows_eq, List.length_map]
    simp
  have hstamp : ∀ r ∈ st2, r.path = pl.normalize path →
      r.totalSize = data.length ∧ r.mtime = mtime := by
    intro r hr hpath
    rw [hst2] at hr
    rcases List.mem_append.mp hr with hmem | hmem
    · have h2 := (List.mem_filter.mp hmem).2
      simp only [decide_eq_true_eq] at h2
      exact absurd hpath h2
    · have hf := writeChunkRows_fields _ data mode mtime r hmem
      exact ⟨hf.2.2.1, hf.2.2.2⟩
  refine ⟨?_, hcount, hstamp, hfilter⟩
  -- the read-back
  have hm1 : 1 ≤ max 1 (chunkCount data.length) := le_max_left _ _
  have hst2u : st2 = st.filter (fun r => ¬ r.path = pl.normalize path) ++
      (List.range' 0 (max 1 (chunkCount data.length))).map (fun i =>
        ⟨pl.normalize path, i, .file,
          some ((data.take (min (chunkBoundary (i + 1)) data.length)).drop (chunkBoundary i)),
          mode, mtime, data.length⟩) := by
    rw [hst2, writeChunkRows_eq]
  have hconsform : List.range' 0 (max 1 (chunkCount data.length)) =
      0 :: List.range' 1 (max 1 (chunkCount data.length) - 1) := by
    rw [show max 1 (chunkCount data.length) = (max 1 (chunkCount data.length) - 1) + 1
      from by omega]
    rw [List.range'_succ 0 _ 1]
    rw [show max 1 (chunkCount data.length) - 1 + 1 - 1
      = max 1 (chunkCount data.length) - 1 from by omega]
  have hmeta : metaRow st2 (pl.normalize path) =
      some ⟨pl.normalize path, 0, .file,
        some ((data.take (min (chunkBoundary (0 + 1)) data.length)).drop (chunkBoundary 0)),
        mode, mtime, data.length⟩ := by
    unfold metaRow
    rw [hst2u, List.find?_append]
    have hnone : (st.filter (fun r => ¬ r.path = pl.normalize path)).find?
        (fun r => r.path == pl.normalize path && r.chunkIndex == 0) = none := by
      rw [List.find?_eq_none]
      intro r hr
      have h2 := (List.mem_filter.mp hr).2
      simp only [decide_eq_true_eq] at h2
      simp [h2]
    rw [hnone]
    rw [hconsform, List.map_cons]
    rw [List.find?_cons_of_pos _ (by simp)]
    rfl
  unfold readFile
  dsimp only
  rw [hmeta]
  dsimp only
  rw [if_neg (by intro hc; cases hc)]
  rw [hfilter, writeChunkRows_eq]
  have hsorted : ((List.range' 0 (max 1 (chunkCount data.length))).map (fun i =>
      (⟨pl.normalize path, i, .file,
        some ((data.take (min (chunkBoundary (i + 1)) data.length)).drop (chunkBoundary i)),
        mode, mtime, data.length⟩ : Row))).Sorted
      (fun a b => a.chunkIndex ≤ b.chunkIndex) := by
    rw [List.Sorted, List.pairwise_map]
    exact (List.pairwise_lt_range' 0 (max 1 (chunkCount data.length))).imp
      (fun hab => le_of_lt hab)
  rw [List.Sorted.insertionSort_eq hsorted]
  rw [List.filterMap_map]
  rw [show ((fun r => Row.content r) ∘ (fun i =>
      (⟨pl.normalize path, i, .file,
        some ((data.take (min (chunkBoundary (i + 1)) data.length)).drop (chunkBoundary i)),
        mode, mtime, data.length⟩ : Row)))
    = (some ∘ (fun i =>
        (data.take (min (chunkBoundary (i + 1)) data.length)).drop (chunkBoundary i)))
    from rfl]
  rw [congrFun (List.filterMap_eq_map _) _]
  have hmapg : (List.range' 0 (max 1 (chunkCount data.length))).map (fun i =>
      (data.take (min (chunkBoundary (i + 1)) data.length)).drop (chunkBoundary i))
      = (List.range' 0 (max 1 (chunkCount data.length))).map (fun i =>
        (data.take (gCut data.length (i + 1))).drop (gCut data.length i)) := by
    apply List.map_congr_left
    intro i hi
    have hib := (List.mem_range'_1.mp hi).2
    have hline : chunkBoundary i ≤ data.length :=
      chunkBoundary_lt data.length i (by omega)
    unfold gCut
    rw [min_eq_left hline]
  rw [hmapg]
  rw [flatten_chunks data (gCut data.length) (gCut_mono data.length)
    (max 1 (chunkCount data.length)) 0]
  rw [Nat.zero_add, gCut_last, gCut_zero, List.drop_zero, List.take_length]

/-- Witness for C3: writing two bytes at a fresh path stores one row and
reads back identically. -/
theorem writeFile_readFile_roundtrip_witness :
    writeFile litPathLib [] "a.txt" [104, 105] 420 "t0" =
      .ok [⟨"a.txt", 0, .file, some [104, 105], 420, "t0", 2⟩] ∧
    readFile litPathLib [⟨"a.txt", 0, .file, some [104, 105], 420, "t0", 2⟩] "a.txt" =
      .ok [104, 105] ∧
    max 1 (chunkCount 2) = 1 := by
  have hw : writeFile litPathLib [] "a.txt" [104, 105] 420 "t0" =
      .ok [⟨"a.txt", 0, .file, some [104, 105], 420, "t0", 2⟩] := rfl
  exact ⟨hw, (writeFile_readFile_roundtrip litPathLib [] "a.txt" [104, 105] 420 "t0"
    [⟨"a.txt", 0, .file, some [104, 105], 420, "t0", 2⟩] hw).1, rfl⟩

/-! ## Claim C2: the report-encoding throw on an over-long ref name -/

/-- `utf8EncodeChar` is the identity byte on ASCII. -/
theorem utf8EncodeChar_ascii (c : Char) (h : c.toNat < 128) :
    utf8EncodeChar c = [c.toNat] := by
  unfold utf8EncodeChar
  dsimp only
  rw [if_pos h]

/-- `utf8Encode` over an ASCII character list is the bytewise code-point
map. -/
theorem utf8Encode_ascii_list (l : List Char) (h : ∀ c ∈ l, c.toNat < 128) :
    (l.map utf8EncodeChar).flatten = l.map Char.toNat := by
  induction l with
  | nil => rfl
  | cons c cs ih =>
    rw [List.map_cons, List.flatten_cons,
      utf8EncodeChar_ascii c (h c (List.mem_cons_self _ _)), List.map_cons,
      List.singleton_append, ih (fun x hx => h x (List.mem_cons_of_mem _ hx))]

/-- `textEncoder.encode` on an ASCII string. -/
theorem utf8Encode_ascii (s : String) (h : ∀ c ∈ s.toList, c.toNat < 128) :
    utf8Encode s = s.toList.map Char.toNat := by
  unfold utf8Encode
  exact utf8Encode_ascii_list s.toList h

/-- Decoding the four hex prefix bytes `toHex4` emits for an in-range
length. -/
theorem decodePktLineLength_toHex4 (L : Nat) (hle : L ≤ 0xffff) :
    decodePktLineLength ((toHex4 L).map Char.toNat) = .ok L := by
  have hpfxlen : ((toHex4 L).map Char.toNat).length = 4 := by simp [toHex4]
  unfold decodePktLineLength
  rw [if_neg (by rw [hpfxlen]; simp)]
  rw [utf8Decode_ascii (toHex4 L) (toHex4_ascii L)]
  rw [jsParseInt16_toHex4 L (by omega)]
  dsimp only
  rw [if_neg (by rintro (hx | hx) <;> omega)]
  congr 1

/-- `readPktLinesUntilFlush` over a well-framed data line collects its payload
and continues past it. -/
theorem readPktLinesUntilFlush_data_step (payload rest : List Nat)
    (hle : payload.length + 4 ≤ 0xffff) :
    readPktLinesUntilFlush
        ((toHex4 (payload.length + 4)).map Char.toNat ++ (payload ++ rest)) 0 =
      (readPktLinesUntilFlush
        ((toHex4 (payload.length + 4)).map Char.toNat ++ (payload ++ rest))
        (payload.length + 4)).map (fun pr => (payload :: pr.1, pr.2)) := by
  have hpfxlen : ((toHex4 (payload.length + 4)).map Char.toNat).length = 4 := by
    simp [toHex4]
  have hlen : ((toHex4 (payload.length + 4)).map Char.toNat ++ (payload ++ rest)).length =
      4 + (payload.length + rest.length) := by
    rw [List.length_append, List.length_append, hpfxlen]
  have hslice0 : listSlice ((toHex4 (payload.length + 4)).map Char.toNat ++ (payload ++ rest))
      0 (0 + 4) = (toHex4 (payload.length + 4)).map Char.toNat := by
    unfold listSlice
    rw [List.drop_zero, show (0 + 4) = ((toHex4 (payload.length + 4)).map Char.toNat).length
      from by rw [hpfxlen]]
    exact List.take_left _ _
  have hpay : ∀ pfx : List Nat, pfx.length = 4 →
      listSlice (pfx ++ (payload ++ rest)) (0 + 4) (0 + (payload.length + 4)) = payload := by
    intro pfx h4
    unfold listSlice
    rw [Nat.zero_add, Nat.zero_add]
    rw [show payload.length + 4 = pfx.length + payload.length from by omega]
    rw [List.take_append, List.take_left]
    rw [show (4 : Nat) = pfx.length from h4.symm, List.drop_left]
  rw [readPktLinesUntilFlush.eq_def]
  rw [dif_pos (by rw [hlen]; omega), hslice0, decodePktLineLength_toHex4 _ hle]
  dsimp only
  rw [if_neg (by omega), if_neg (by omega), if_neg (by omega)]
  rw [if_neg (by rw [hlen]; omega)]
  rw [hpay ((toHex4 (payload.length + 4)).map Char.toNat) hpfxlen]
  simp only [Nat.zero_add]

/-- `readPktLinesUntilFlush` hitting a flush at an offset right past a known
prefix. -/
theorem readPktLinesUntilFlush_flush_at (A B : List Nat) (o : Nat) (hA : A.length = o)
    (hB : B.take 4 = [48, 48, 48, 48]) :
    readPktLinesUntilFlush (A ++ B) o = .ok ([], o + 4) := by
  have hBlen : 4 ≤ B.length := by
    have h := congrArg List.length hB
    rw [List.length_take] at h
    simp at h
    omega
  have hslice : listSlice (A ++ B) o (o + 4) = [48, 48, 48, 48] := by
    unfold listSlice
    rw [← hA, List.take_append, List.drop_left, hB]
  unfold readPktLinesUntilFlush
  rw [dif_pos (by rw [List.length_append, hA]; omega)]
  rw [hslice]
  rw [show decodePktLineLength [48, 48, 48, 48] = .ok 0 from rfl]
  dsimp only
  rw [if_pos rfl]

/-- `takeWhile` keeps a list all of whose elements satisfy the predicate. -/
theorem takeWhile_all {α : Type} (p : α → Bool) (l : List α) (h : ∀ a ∈ l, p a = true) :
    l.takeWhile p = l := by
  induction l with
  | nil => rfl
  | cons a as ih =>
    rw [List.takeWhile_cons, h a (List.mem_cons_self _ _)]
    simp [ih (fun x hx => h x (List.mem_cons_of_mem _ hx))]

/-- `jsSplitWsAux` on a whitespace-free tail closes the word in progress. -/
theorem jsSplitWsAux_some_all (acc l : List Char)
    (h : ∀ c ∈ l, isJsWhitespace c = false) :
    jsSplitWsAux (some acc) l = [String.mk (acc.reverse ++ l)] := by
  induction l generalizing acc with
  | nil => simp [jsSplitWsAux]
  | cons c cs ih =>
    have hc : isJsWhitespace c = false := h c (List.mem_cons_self _ _)
    simp only [jsSplitWsAux, hc, Bool.false_eq_true, if_false]
    rw [ih (c :: acc) (fun x hx => h x (List.mem_cons_of_mem _ hx))]
    rw [List.reverse_cons, List.append_assoc, List.singleton_append]

/-- `parseRefUpdates` on the single command `a b <ref>` with a nonempty,
whitespace-free, NUL-free ref: the oids need not be 40 hex digits, any three
whitespace-separated fields parse. -/
theorem parseRefUpdates_abref (rl : List Char) (hne : rl ≠ [])
    (hnw : ∀ c ∈ rl, isJsWhitespace c = false)
    (hnn : ∀ c ∈ rl, decide (c.toNat ≠ 0) = true) :
    parseRefUpdates [String.mk ('a' :: ' ' :: 'b' :: ' ' :: rl)] =
      [⟨"a", "b", String.mk rl⟩] := by
  have hend : jsEndsWith (String.mk ('a' :: ' ' :: 'b' :: ' ' :: rl)) "\n" = false := by
    unfold jsEndsWith
    apply Bool.eq_false_iff.mpr
    intro hsuf
    have h2 : ('\n' :: []) <:+ ('a' :: ' ' :: 'b' :: ' ' :: rl) :=
      List.isSuffixOf_iff_suffix.mp hsuf
    have hmem : '\n' ∈ ('a' :: ' ' :: 'b' :: ' ' :: rl) :=
      h2.subset (List.mem_cons_self _ _)
    simp only [List.mem_cons] at hmem
    rcases hmem with h1 | h1 | h1 | h1 | h1
    · exact absurd h1 (by decide)
    · exact absurd h1 (by decide)
    · exact absurd h1 (by decide)
    · exact absurd h1 (by decide)
    · exact absurd (hnw _ h1) (by decide)
  have hbefore : beforeNul (String.mk ('a' :: ' ' :: 'b' :: ' ' :: rl)) =
      String.mk ('a' :: ' ' :: 'b' :: ' ' :: rl) := by
    unfold beforeNul
    show String.mk (List.takeWhile _ ('a' :: ' ' :: 'b' :: ' ' :: rl)) = _
    congr 1
    apply takeWhile_all
    intro c hc
    simp only [List.mem_cons] at hc
    rcases hc with h1 | h1 | h1 | h1 | h1
    · subst h1; decide
    · subst h1; decide
    · subst h1; decide
    · subst h1; decide
    · exact hnn c h1
  have hne2 : ¬ (String.mk ('a' :: ' ' :: 'b' :: ' ' :: rl) = "") := by
    intro hcontra
    have h2 : ('a' :: ' ' :: 'b' :: ' ' :: rl) = [] := congrArg String.data hcontra
    cases h2
  have htrim : jsTrim (String.mk ('a' :: ' ' :: 'b' :: ' ' :: rl)) =
      String.mk ('a' :: ' ' :: 'b' :: ' ' :: rl) := by
    rcases rl.eq_nil_or_concat with rfl | ⟨ys, y, hys⟩
    · exact absurd rfl hne
    · have hy : isJsWhitespace y = false := hnw y (by rw [hys]; simp)
      unfold jsTrim
      show String.mk (((List.dropWhile isJsWhitespace
        ('a' :: ' ' :: 'b' :: ' ' :: rl)).reverse.dropWhile isJsWhitespace).reverse) = _
      rw [List.dropWhile_cons]
      rw [show isJsWhitespace 'a' = false from rfl]
      simp only [Bool.false_eq_true, if_false]
      rw [show ('a' :: ' ' :: 'b' :: ' ' :: rl) =
        ('a' :: ' ' :: 'b' :: ' ' :: ys) ++ [y] from by rw [hys]; simp]
      rw [List.reverse_append, List.reverse_singleton, List.singleton_append]
      rw [List.dropWhile_cons, hy]
      simp only [Bool.false_eq_true, if_false]
      simp only [List.reverse_cons, List.reverse_reverse]
      simp
  have hsplit : jsSplitWs (String.mk ('a' :: ' ' :: 'b' :: ' ' :: rl)) =
      ["a", "b", String.mk rl] := by
    rcases rl with _ | ⟨r0, rtl⟩
    · exact absurd rfl hne
    · have hr0 : isJsWhitespace r0 = false := hnw r0 (List.mem_cons_self _ _)
      unfold jsSplitWs
      show jsSplitWsAux (some []) ('a' :: ' ' :: 'b' :: ' ' :: r0 :: rtl) = _
      simp only [jsSplitWsAux, show isJsWhitespace 'a' = false from rfl,
        show isJsWhitespace 'b' = false from rfl, show isJsWhitespace ' ' = true from rfl,
        hr0, Bool.false_eq_true, if_false, if_true]
      rw [jsSplitWsAux_some_all [r0] rtl (fun x hx => hnw x (List.mem_cons_of_mem _ hx))]
      simp
  unfold parseRefUpdates
  rw [show List.enum [String.mk ('a' :: ' ' :: 'b' :: ' ' :: rl)] =
    [(0, String.mk ('a' :: ' ' :: 'b' :: ' ' :: rl))] from rfl]
  rw [List.filterMap_cons]
  dsimp only
  rw [hend]
  simp only [Bool.false_eq_true, if_false, if_true]
  rw [hbefore]
  rw [if_neg hne2]
  rw [htrim, hsplit]
  dsimp only
  rw [List.filterMap_nil]

/-- A `refs/`-prefixed ref name of 65,514 characters: its
`ng <ref> unpack failed` report line frames to 65,536 bytes, one over the
pkt-line maximum. -/
def hugeRefChars : List Char := 'r' :: 'e' :: 'f' :: 's' :: '/' :: List.replicate 65509 'z'

/-- The push command `a b <hugeRef>` (65,518 characters, so its own pkt-line
frame of 65,522 bytes is legal). -/
def hugeCmd : List Char := 'a' :: ' ' :: 'b' :: ' ' :: hugeRefChars

/-- The command's payload bytes (all ASCII). -/
def hugePayload : List Nat := hugeCmd.map Char.toNat

/-- A well-formed `receivePack` body: the framed huge command, a flush, and
the oversized signed packfile. -/
def hugeData : List Nat :=
  ((toHex4 65522).map Char.toNat ++ hugePayload) ++ ([48, 48, 48, 48] ++ bigPack)

/-- Length of the huge ref name. -/
theorem hugeRefChars_length : hugeRefChars.length = 65514 := by
  have h : hugeRefChars = 'r' :: 'e' :: 'f' :: 's' :: '/' :: List.replicate 65509 'z' := rfl
  rw [h, List.length_cons, List.length_cons, List.length_cons, List.length_cons,
    List.length_cons, List.length_replicate]

/-- Length of the huge command. -/
theorem hugeCmd_length : hugeCmd.length = 65518 := by
  have h : hugeCmd = 'a' :: ' ' :: 'b' :: ' ' :: hugeRefChars := rfl
  rw [h, List.length_cons, List.length_cons, List.length_cons, List.length_cons,
    hugeRefChars_length]

/-- Length of the huge command's payload bytes. -/
theorem hugePayload_length : hugePayload.length = 65518 := by
  have h : hugePayload = hugeCmd.map Char.toNat := rfl
  rw [h, List.length_map, hugeCmd_length]

/-- The characters of the huge ref name. -/
theorem hugeRefChars_mem (c : Char) (hc : c ∈ hugeRefChars) :
    c = 'r' ∨ c = 'e' ∨ c = 'f' ∨ c = 's' ∨ c = '/' ∨ c = 'z' := by
  have h : hugeRefChars = 'r' :: 'e' :: 'f' :: 's' :: '/' :: List.replicate 65509 'z' := rfl
  rw [h] at hc
  simp only [List.mem_cons] at hc
  rcases hc with h1 | h1 | h1 | h1 | h1 | h1
  · exact Or.inl h1
  · exact Or.inr (Or.inl h1)
  · exact Or.inr (Or.inr (Or.inl h1))
  · exact Or.inr (Or.inr (Or.inr (Or.inl h1)))
  · exact Or.inr (Or.inr (Or.inr (Or.inr (Or.inl h1))))
  · exact Or.inr (Or.inr (Or.inr (Or.inr (Or.inr (List.eq_of_mem_replicate h1)))))

/-- The huge ref name holds no JS whitespace. -/
theorem hugeRefChars_nonws : ∀ c ∈ hugeRefChars, isJsWhitespace c = false := by
  intro c hc
  rcases hugeRefChars_mem c hc with h | h | h | h | h | h <;> subst h <;> decide

/-- The huge ref name holds no NUL. -/
theorem hugeRefChars_nonnul : ∀ c ∈ hugeRefChars, decide (c.toNat ≠ 0) = true := by
  intro c hc
  rcases hugeRefChars_mem c hc with h | h | h | h | h | h <;> subst h <;> decide

/-- The huge command is ASCII. -/
theorem hugeCmd_ascii : ∀ c ∈ hugeCmd, c.toNat < 128 := by
  intro c hc
  have h : hugeCmd = 'a' :: ' ' :: 'b' :: ' ' :: hugeRefChars := rfl
  rw [h] at hc
  simp only [List.mem_cons] at hc
  rcases hc with h1 | h1 | h1 | h1 | h1
  · subst h1; decide
  · subst h1; decide
  · subst h1; decide
  · subst h1; decide
  · rcases hugeRefChars_mem c h1 with h2 | h2 | h2 | h2 | h2 | h2 <;> subst h2 <;> decide

/-- The huge body's command section parses: one payload, flush consumed at
offset 65,526. -/
theorem hugeData_parse : readPktLinesUntilFlush hugeData 0 = .ok ([hugePayload], 65526) := by
  have hform : hugeData = (toHex4 (hugePayload.length + 4)).map Char.toNat ++
      (hugePayload ++ ([48, 48, 48, 48] ++ bigPack)) := by
    have h : hugeData = ((toHex4 65522).map Char.toNat ++ hugePayload) ++
        ([48, 48, 48, 48] ++ bigPack) := rfl
    rw [h, hugePayload_length, List.append_assoc]
  rw [hform]
  rw [readPktLinesUntilFlush_data_step hugePayload ([48, 48, 48, 48] ++ bigPack)
    (by rw [hugePayload_length]; omega)]
  have hA : ((toHex4 (hugePayload.length + 4)).map Char.toNat ++ hugePayload).length =
      hugePayload.length + 4 := by
    rw [List.length_append]
    rw [show ((toHex4 (hugePayload.length + 4)).map Char.toNat).length = 4 from by
      simp [toHex4]]
    omega
  have hB4 : ([48, 48, 48, 48] ++ bigPack : List Nat).take 4 = [48, 48, 48, 48] := by
    rw [show (4 : Nat) = ([48, 48, 48, 48] : List Nat).length + 0 from rfl,
      List.take_append, List.take_zero, List.append_nil]
  have hflush := readPktLinesUntilFlush_flush_at
    ((toHex4 (hugePayload.length + 4)).map Char.toNat ++ hugePayload)
    ([48, 48, 48, 48] ++ bigPack) (hugePayload.length + 4) hA hB4
  rw [List.append_assoc] at hflush
  rw [hflush]
  rw [show (hugePayload.length + 4) + 4 = 65526 from by rw [hugePayload_length]]
  rfl

/-- Past the flush, the huge body is exactly the oversized pack. -/
theorem hugeData_drop : hugeData.drop 65526 = bigPack := by
  have h : hugeData = ((toHex4 65522).map Char.toNat ++ hugePayload) ++
      ([48, 48, 48, 48] ++ bigPack) := rfl
  have hA : ((toHex4 65522).map Char.toNat ++ hugePayload).length = 65522 := by
    rw [List.length_append, hugePayload_length]
    rw [show ((toHex4 65522).map Char.toNat).length = 4 from by simp [toHex4]]
  rw [h]
  rw [show (65526 : Nat) = ((toHex4 65522).map Char.toNat ++ hugePayload).length + 4 from by
    rw [hA]]
  rw [List.drop_append]
  rfl

/-- The `ng <hugeRef> unpack failed` line does not fit a pkt-line frame:
`encodePktLine` throws. -/
theorem hugeNg_error :
    encodePktLine (utf8Encode (reportLine (.ng (String.mk hugeRefChars) "unpack failed"))) =
      .error "pkt-line too long" := by
  have hline : reportLine (.ng (String.mk hugeRefChars) "unpack failed") =
      "ng " ++ String.mk hugeRefChars ++ " " ++ "unpack failed" ++ "\n" := rfl
  have hdata : ("ng " ++ String.mk hugeRefChars ++ " " ++ "unpack failed" ++ "\n").toList =
      "ng ".toList ++ hugeRefChars ++ " ".toList ++ "unpack failed".toList ++ "\n".toList := by
    show ("ng " ++ String.mk hugeRefChars ++ " " ++ "unpack failed" ++ "\n").data =
      "ng ".data ++ hugeRefChars ++ " ".data ++ "unpack failed".data ++ "\n".data
    rw [String.data_append, String.data_append, String.data_append, String.data_append]
  have hascii2 : ∀ c ∈ ("ng " ++ String.mk hugeRefChars ++ " " ++ "unpack failed" ++
      "\n").toList, c.toNat < 128 := by
    intro c hc
    rw [hdata] at hc
    simp only [List.mem_append] at hc
    rcases hc with ((((h | h) | h) | h) | h)
    · exact (by decide : ∀ c ∈ "ng ".toList, c.toNat < 128) c h
    · rcases hugeRefChars_mem c h with h2 | h2 | h2 | h2 | h2 | h2 <;> subst h2 <;> decide
    · exact (by decide : ∀ c ∈ " ".toList, c.toNat < 128) c h
    · exact (by decide : ∀ c ∈ "unpack failed".toList, c.toNat < 128) c h
    · exact (by decide : ∀ c ∈ "\n".toList, c.toNat < 128) c h
  have hlen : (utf8Encode ("ng " ++ String.mk hugeRefChars ++ " " ++ "unpack failed" ++
      "\n")).length = 65532 := by
    rw [utf8Encode_ascii _ hascii2, List.length_map, hdata, List.length_append,
      List.length_append, List.length_append, List.length_append, hugeRefChars_length]
    rfl
  rw [hline]
  unfold encodePktLine
  dsimp only
  rw [hlen]
  rw [if_pos (by norm_num)]

/-- The huge body's post-flush bytes carry the `PACK` signature. -/
theorem hugeData_sig : (hugeData.drop 65526).take 4 = [0x50, 0x41, 0x43, 0x4B] := by
  rw [hugeData_drop]
  rfl

/-- The huge body's post-flush bytes exceed the ceiling. -/
theorem hugeData_big : MAX_PACK_SIZE < (hugeData.drop 65526).length := by
  rw [hugeData_drop, bigPack_length]
  rw [MAX_PACK_SIZE]
  omega

/-- The huge push makes `receivePack` throw while encoding the report. -/
theorem hugeData_receivePack_error :
    receivePack modelBackend (fun rp _ => .ok rp) ⟨[], "refs/heads/main"⟩ hugeData =
      .error "pkt-line too long" := by
  have heq := receivePack_oversized_eq modelBackend (fun rp _ => .ok rp)
    ⟨[], "refs/heads/main"⟩ hugeData [hugePayload] 65526
    hugeData_parse hugeData_sig hugeData_big
  rw [heq]
  have hdecode : decodePktText hugePayload =
      String.mk ('a' :: ' ' :: 'b' :: ' ' :: hugeRefChars) := by
    have h : decodePktText hugePayload = String.mk (utf8Decode (hugeCmd.map Char.toNat)) :=
      rfl
    rw [h, utf8Decode_ascii hugeCmd hugeCmd_ascii]
    rfl
  have hne : hugeRefChars ≠ [] := by
    have h : hugeRefChars = 'r' :: 'e' :: 'f' :: 's' :: '/' :: List.replicate 65509 'z' :=
      rfl
    rw [h]
    exact List.cons_ne_nil _ _
  simp only [List.map_cons, List.map_nil]
  rw [hdecode]
  rw [parseRefUpdates_abref hugeRefChars hne hugeRefChars_nonws hugeRefChars_nonnul]
  simp only [List.map_cons, List.map_nil]
  have hrep : buildReportStatus (.fail "error: pack too large")
      [.ng (String.mk hugeRefChars) "unpack failed"] = .error "pkt-line too long" :=
    buildReportStatus_error_of _ _ _ ⟨_, rfl⟩
      (encodeAll_cons_error _ _ _ hugeNg_error)
  rw [hrep]
  rfl

/-- Counterexample to C2 as stated: a request whose post-flush packfile bytes
exceed the ceiling but whose single well-framed command carries a 65,514-byte
ref name.  The ref's `ng ... unpack failed` report line overflows the
pkt-line frame, so `receivePack` throws `pkt-line too long` instead of
responding with the promised `unpack <error>` report. -/
theorem receivePack_oversized_report_counterexample :
    readPktLinesUntilFlush hugeData 0 = .ok ([hugePayload], 65526) ∧
    (hugeData.drop 65526).take 4 = [0x50, 0x41, 0x43, 0x4B] ∧
    MAX_PACK_SIZE < (hugeData.drop 65526).length ∧
    receivePack modelBackend (fun rp _ => .ok rp) ⟨[], "refs/heads/main"⟩ hugeData =
      .error "pkt-line too long" :=
  ⟨hugeData_parse, hugeData_sig, hugeData_big, hugeData_receivePack_error⟩

end CfGit
